import Mathlib

/-!
Verification of the in-memory chunk flush engine of the cortex ingester
(`pkg/ingester/flush.go`).

The embedding below translates the flush engine into pure Lean functions.
Conventions:
* `model.Time` values (millisecond timestamps) are `Int`.
* `time.Duration` values (nanoseconds) are `Int`; `model.Time.Sub` multiplies
  the millisecond difference by 1_000_000 to produce nanoseconds, exactly as
  `time.Duration(t-o) * time.Millisecond` does.
* fingerprints (`model.Fingerprint`, a uint64) are `Nat`; where the Go code
  converts a fingerprint to `time.Duration` (an int64) the conversion wraps
  modulo 2^64, which `toInt64` makes explicit.
* the wall clock (`model.Now()`) is passed explicitly as a parameter `now`;
  a single invocation uses one `now` value.
* fallible operations return `Except String _`.
* the Prometheus metrics touched by the flush path are modelled as plain
  counters/gauges in a `Metrics` record (histogram `Observe` calls are counted
  in `histogramObservations`; per-user counter labels are abstracted away).
  `putCalls` counts invocations of `chunkStore.Put` so that "no Put was
  issued" is expressible.
-/

/-- Flush reasons (flush.go `flushReason` constants). -/
inductive flushReason where
  | noFlush
  | reasonImmediate
  | reasonMultipleChunksInSeries
  | reasonAged
  | reasonIdle
  | reasonStale
  | reasonSpreadFlush
deriving DecidableEq, Repr

/-- Payload of an in-memory chunk: the opaque encoded data `C` of a chunk
descriptor.  `len` is `C.Len()`, `size` is `C.Size()`, and `encodeOk` records
whether `Encode()` succeeds on the wire chunk built from this payload. -/
structure ChunkData where
  len : Nat
  size : Nat
  encodeOk : Bool
deriving DecidableEq, Repr

/-- Chunk descriptor (`desc`): one in-memory chunk of a series.  Field names
follow the source; `FirstTime`, `LastTime`, `LastUpdate` are `model.Time`
milliseconds. -/
structure desc where
  C : ChunkData
  FirstTime : Int
  LastTime : Int
  LastUpdate : Int
  flushed : Bool
  flushReason : flushReason
deriving DecidableEq, Repr

instance : Inhabited desc := ⟨⟨⟨0, 0, true⟩, 0, 0, 0, false, .noFlush⟩⟩

/-- Modelled from the spec: `memorySeries` (spec section 3; the type itself
lives outside src/).  It owns the ordered chunk descriptors (oldest first),
the label set (abstracted to a `Nat`), the `headChunkClosed` flag and the
stale marker for the last sample. -/
structure memorySeries where
  metric : Nat
  chunkDescs : List desc
  headChunkClosed : Bool
  lastSampleStale : Bool
deriving DecidableEq, Repr

/-- Modelled from the spec: `isStale` reports whether the last sample of the
series is a Prometheus-style stale marker. -/
def memorySeries.isStale (s : memorySeries) : Bool := s.lastSampleStale

/-- Modelled from the spec: `firstTime()` returns `chunkDescs[0].FirstTime`
(only called on series with at least one chunk; defaults to 0 on empty). -/
def memorySeries.firstTime (s : memorySeries) : Int :=
  (s.chunkDescs.headD default).FirstTime

/-- Modelled from the spec: `head()` returns the last chunk descriptor (the
head chunk).  Callers guarantee the series is non-empty (Go would panic). -/
def memorySeries.head (s : memorySeries) : desc :=
  s.chunkDescs.getLastD default

/-- Modelled from the spec: `firstUnflushedChunkTime()` returns the
`FirstTime` of the earliest chunk that is not yet flushed, or 0 when every
chunk is flushed (or the series has none). -/
def memorySeries.firstUnflushedChunkTime (s : memorySeries) : Int :=
  match s.chunkDescs.find? (fun d => !d.flushed) with
  | some d => d.FirstTime
  | none => 0

/-- Stamps a reason on the last element of a chunk-descriptor list. -/
def stampLast : List desc → flushReason → List desc
  | [], _ => []
  | [d], r => [{ d with flushReason := r }]
  | d :: rest, r => d :: stampLast rest r

/-- Modelled from the spec: `closeHead(reason)` marks the head chunk closed
and stamps `flushReason` on the chunk it closes (spec sections 3 and 9; the
method lives outside src/). -/
def memorySeries.closeHead (s : memorySeries) (reason : flushReason) : memorySeries :=
  { s with chunkDescs := stampLast s.chunkDescs reason, headChunkClosed := true }

/-- Flush-engine configuration (the fields of `cfg` that flush.go reads).
Durations are nanoseconds; `ConcurrentFlushes` is the shard/worker count. -/
structure Config where
  ConcurrentFlushes : Nat
  MaxChunkAge : Int
  ChunkAgeJitter : Int
  MaxChunkIdle : Int
  MaxStaleChunkIdle : Int
  RetainPeriod : Int
deriving DecidableEq, Repr

/-- `model.Time.Sub`: difference of two millisecond timestamps as a
nanosecond `time.Duration` (`time.Duration(t-o) * time.Millisecond`). -/
def timeSub (t o : Int) : Int := (t - o) * 1000000

/-- `model.Time.Unix()`: milliseconds to Unix seconds, truncated toward zero
as Go's int64 division does. -/
def timeUnix (t : Int) : Int := t.tdiv 1000

/-- Reinterpretation of a uint64 as an int64, as Go's
`time.Duration(fp)` conversion does: the value wraps modulo 2^64 and values
at or above 2^63 become negative. -/
def toInt64 (n : Nat) : Int :=
  if n % 2 ^ 64 < 2 ^ 63 then ((n % 2 ^ 64 : Nat) : Int)
  else ((n % 2 ^ 64 : Nat) : Int) - 2 ^ 64

/-- `shouldFlushChunk` (flush.go lines 214-242).  Go's `%` on integers is the
truncated remainder, `Int.tmod`. -/
def shouldFlushChunk (cfg : Config) (now : Int) (c : desc) (fp : Nat)
    (lastValueIsStale : Bool) : flushReason :=
  if c.flushed then .noFlush
  else
    let jitter : Int :=
      if cfg.ChunkAgeJitter ≠ 0 then Int.tmod (toInt64 fp) cfg.ChunkAgeJitter else 0
    if timeSub c.LastTime c.FirstTime > cfg.MaxChunkAge - jitter then .reasonAged
    else if timeSub now c.LastUpdate > cfg.MaxChunkIdle then .reasonIdle
    else if cfg.MaxStaleChunkIdle > 0 ∧ lastValueIsStale = true ∧
        timeSub now c.LastUpdate > cfg.MaxStaleChunkIdle then .reasonStale
    else .noFlush

/-- `shouldFlushSeries` (flush.go lines 195-212). -/
def shouldFlushSeries (cfg : Config) (now : Int) (series : memorySeries) (fp : Nat)
    (immediate : Bool) : flushReason :=
  match series.chunkDescs with
  | [] => .noFlush
  | c0 :: rest =>
    if immediate then .reasonImmediate
    else if rest.length > 0 ∧ c0.flushed = false then
      if c0.flushReason ≠ .noFlush then c0.flushReason
      else .reasonMultipleChunksInSeries
    else shouldFlushChunk cfg now c0 fp series.isStale

/-- Flush op (`flushOp`): a scheduled flush for one `(user, fingerprint)`.
The Go field `from` (a `model.Time`) is named `fromTime` here because `from`
is a Lean keyword.  `Key()` is the triple rendered by the source's
`fmt.Sprintf`; `Priority()` is `-from`, so smaller `fromTime` means higher
priority. -/
structure flushOp where
  fromTime : Int
  userID : String
  fp : Nat
  immediate : Bool
deriving DecidableEq, Repr

/-- The de-duplication key of a flush op (`flushOp.Key()`). -/
def flushOp.key (o : flushOp) : String × Nat × Bool := (o.userID, o.fp, o.immediate)

/-- Modelled from the spec: priority-queue insertion (spec section 4.2; the
queue type lives outside src/).  Ops are kept sorted by ascending `fromTime`
(descending `Priority()`), FIFO among equal priorities. -/
def insertByFrom (o : flushOp) : List flushOp → List flushOp
  | [] => [o]
  | p :: rest => if o.fromTime < p.fromTime then o :: p :: rest else p :: insertByFrom o rest

/-- Modelled from the spec: `Enqueue` (spec section 4.2).  If an op with the
same `Key()` is queued, nothing happens and `false` is returned; otherwise
the op is inserted in priority order and `true` is returned. -/
def enqueue (q : List flushOp) (o : flushOp) : Bool × List flushOp :=
  if q.any (fun p => p.userID == o.userID && p.fp == o.fp && p.immediate == o.immediate)
  then (false, q)
  else (true, insertByFrom o q)

/-- Modelled from the spec: `Dequeue` (spec section 4.2) returns the
highest-priority op, or `none` when the queue is empty (in the source this is
the closed-and-drained case). -/
def dequeue (q : List flushOp) : Option (flushOp × List flushOp) :=
  match q with
  | [] => none
  | o :: rest => some (o, rest)

/-- `flushBackoff` (flush.go line 24), expressed in the milliseconds that
`op.from.Add(flushBackoff)` adds: 1 second = 1000 ms. -/
def flushBackoffMs : Int := 1000

/-- The Prometheus metrics the flush path writes, as plain state.
`histogramObservations` counts histogram `Observe` calls;
`putCalls` counts `chunkStore.Put` invocations (model instrumentation used to
state that no Put was issued). -/
structure Metrics where
  memoryChunks : Int
  droppedChunks : Nat
  chunksStoredTotal : Nat
  chunkStoredBytesTotal : Nat
  histogramObservations : Nat
  flushReasonsTotal : Nat
  oldestUnflushedChunkTimestamp : Int
  putCalls : Nat
deriving DecidableEq, Repr

/-- Modelled from the spec: per-tenant state (spec section 3), a mapping
`fingerprint → series` represented as an association list. -/
structure userState where
  fpToSeries : List (Nat × memorySeries)
deriving DecidableEq, Repr

/-- Association-list lookup, the model of a Go map read. -/
def getSeriesList : List (Nat × memorySeries) → Nat → Option memorySeries
  | [], _ => none
  | p :: rest, fp => if p.1 = fp then some p.2 else getSeriesList rest fp

/-- Modelled from the spec: `fpToSeries.get(fp)`. -/
def userState.get (u : userState) (fp : Nat) : Option memorySeries :=
  getSeriesList u.fpToSeries fp

/-- Association-list overwrite of every entry under a key. -/
def setSeriesList : List (Nat × memorySeries) → Nat → memorySeries → List (Nat × memorySeries)
  | [], _, _ => []
  | p :: rest, fp, s =>
    if p.1 = fp then (p.1, s) :: setSeriesList rest fp s else p :: setSeriesList rest fp s

/-- Modelled from the spec: writing the (mutated) series back under its
fingerprint; in Go this is implicit pointer aliasing of the map entry. -/
def userState.set (u : userState) (fp : Nat) (s : memorySeries) : userState :=
  ⟨setSeriesList u.fpToSeries fp s⟩

/-- Association-list deletion of every entry under a key. -/
def removeSeriesList : List (Nat × memorySeries) → Nat → List (Nat × memorySeries)
  | [], _ => []
  | p :: rest, fp =>
    if p.1 = fp then removeSeriesList rest fp else p :: removeSeriesList rest fp

/-- Modelled from the spec: `removeSeries(fp, metric)` deletes the series
from the tenant's map (the metric argument only updates an inverted index,
which is outside this model). -/
def userState.removeSeries (u : userState) (fp : Nat) : userState :=
  ⟨removeSeriesList u.fpToSeries fp⟩

/-- Looks a tenant up in the user-states registry (`userStates.get`). -/
def lookupUser : List (String × userState) → String → Option userState
  | [], _ => none
  | p :: rest, id => if p.1 = id then some p.2 else lookupUser rest id

/-- Writes a tenant's state back into the registry; in Go this is implicit
pointer aliasing of the registry entry. -/
def updateUser : List (String × userState) → String → (userState → userState) →
    List (String × userState)
  | [], _, _ => []
  | p :: rest, id, f =>
    if p.1 = id then (p.1, f p.2) :: updateUser rest id f else p :: updateUser rest id f

/-- The ingester state the flush engine touches.  `chunkStore = none` models
a nil chunk store; `some b` is a store whose `Put` uniformly succeeds
(`b = true`) or fails during the invocation under consideration.
`limits` is `i.limits.MinChunkLength` per tenant. -/
structure Ingester where
  cfg : Config
  limits : String → Int
  chunkStore : Option Bool
  userStates : List (String × userState)
  flushQueues : List (List flushOp)
  metrics : Metrics

/-- Success value of the modelled store's `Put` (false also when the store is
nil, where Go would panic; flushUserSeries is only reachable with a store). -/
def Ingester.chunkStorePut (i : Ingester) : Bool := i.chunkStore.getD false

/-- Wire chunk (`chunk.NewChunk`): what is handed to the chunk store. -/
structure WireChunk where
  userID : String
  fp : Nat
  metric : Nat
  data : ChunkData
  FirstTime : Int
  LastTime : Int
deriving DecidableEq, Repr

/-- The wire-chunk construction loop of `flushChunks` (flush.go lines
381-388): builds a wire chunk per descriptor and fails at the first
`Encode()` error. -/
def buildWireChunks (userID : String) (fp : Nat) (metric : Nat) :
    List desc → Except String (List WireChunk)
  | [] => .ok []
  | d :: rest =>
    if d.C.encodeOk then
      match buildWireChunks userID fp metric rest with
      | .ok ws => .ok ({ userID := userID, fp := fp, metric := metric, data := d.C,
                         FirstTime := d.FirstTime, LastTime := d.LastTime } :: ws)
      | .error e => .error e
    else .error "chunk encode failed"

/-- The per-chunk statistics recorded after a successful `Put` (flush.go
lines 394-406): four histogram observations per chunk plus the per-user
stored-chunk counters. -/
def recordStats (ds : List desc) (m : Metrics) : Metrics :=
  ds.foldl
    (fun m d =>
      { m with
        chunksStoredTotal := m.chunksStoredTotal + 1,
        chunkStoredBytesTotal := m.chunkStoredBytesTotal + d.C.size,
        histogramObservations := m.histogramObservations + 4 })
    m

/-- `flushChunks` (flush.go lines 380-409): encode every chunk, call
`chunkStore.Put`, and record statistics only when the put did not fail. -/
def flushChunks (putOk : Bool) (userID : String) (fp : Nat) (metric : Nat)
    (chunkDescs : List desc) (m : Metrics) : Except String Metrics :=
  match buildWireChunks userID fp metric chunkDescs with
  | .error e => .error e
  | .ok _ws =>
    let m1 := { m with putCalls := m.putCalls + 1 }
    if putOk then .ok (recordStats chunkDescs m1)
    else .error "chunk store put failed"

/-- Head-chunk handling of `flushUserSeries` (flush.go lines 293-302): close
the head with `Immediate` on the shutdown path, close it with its own chunk
reason when it needs flushing, otherwise step back by one so the open head
stays in memory.  Returns the (possibly mutated) series and the selected
chunk range. -/
def pickChunks (cfg : Config) (now : Int) (series : memorySeries) (fp : Nat)
    (immediate : Bool) : memorySeries × List desc :=
  if immediate then
    let s := series.closeHead .reasonImmediate
    (s, s.chunkDescs)
  else
    let chunkReason := shouldFlushChunk cfg now series.head fp series.isStale
    if chunkReason ≠ .noFlush then
      let s := series.closeHead chunkReason
      (s, s.chunkDescs)
    else (series, series.chunkDescs.dropLast)

/-- Total `Len()` of a chunk range (the undersize-drop sum, flush.go lines
306-309). -/
def chunksLen (l : List desc) : Nat := (l.map (fun d => d.C.len)).sum

/-- Marks the first `n` chunk descriptors flushed with a fresh `LastUpdate`
(the loop of flush.go lines 353-357). -/
def markFlushed : List desc → Nat → Int → List desc
  | ds, 0, _ => ds
  | [], _ + 1, _ => []
  | d :: rest, n + 1, now =>
    { d with flushed := true, LastUpdate := now } :: markFlushed rest n now

/-- `flushUserSeries` (flush.go lines 271-361).  Locking, tracing and the
per-op context are not represented; the invocation is sequential.  State
mutations through series/userState pointers become explicit write-backs. -/
def flushUserSeries (i : Ingester) (now : Int) (userID : String) (fp : Nat)
    (immediate : Bool) : Except String Unit × Ingester :=
  match lookupUser i.userStates userID with
  | none => (.ok (), i)
  | some ustate =>
    match ustate.get fp with
    | none => (.ok (), i)
    | some series =>
      let reason := shouldFlushSeries i.cfg now series fp immediate
      if reason = .noFlush then (.ok (), i)
      else
        let picked := pickChunks i.cfg now series fp immediate
        let series1 := picked.1
        let chunks := picked.2
        if (reason = .reasonIdle ∨ reason = .reasonStale) ∧ series1.headChunkClosed = true ∧
            0 < i.limits userID ∧ (chunksLen chunks : Int) < i.limits userID then
          (.ok (),
            { i with
              userStates := updateUser i.userStates userID (fun _ => ustate.removeSeries fp),
              metrics :=
                { i.metrics with
                  memoryChunks := i.metrics.memoryChunks - chunks.length,
                  droppedChunks := i.metrics.droppedChunks + chunks.length } })
        else
          let ust1 := ustate.set fp series1
          let i1 := { i with userStates := updateUser i.userStates userID (fun _ => ust1) }
          if chunks.isEmpty then (.ok (), i1)
          else
            match flushChunks i.chunkStorePut userID fp series1.metric chunks i.metrics with
            | .error e => (.error e, i1)
            | .ok m1 =>
              if immediate then
                (.ok (),
                  { i1 with
                    userStates := updateUser i1.userStates userID
                      (fun _ => ust1.removeSeries fp),
                    metrics := { m1 with memoryChunks := m1.memoryChunks - chunks.length } })
              else
                let series2 :=
                  { series1 with chunkDescs := markFlushed series1.chunkDescs chunks.length now }
                (.ok (),
                  { i1 with
                    userStates := updateUser i1.userStates userID (fun _ => ust1.set fp series2),
                    metrics := m1 })

/-- `sweepSeries` (flush.go lines 177-193): compute the flush reason and, if
the series needs flushing, enqueue a flush op on shard
`fp mod ConcurrentFlushes`; the `flushReasons` counter is bumped only when
`Enqueue` reported a fresh insertion. -/
def sweepSeries (i : Ingester) (now : Int) (userID : String) (fp : Nat)
    (series : memorySeries) (immediate : Bool) : Ingester :=
  if series.chunkDescs.isEmpty then i
  else
    let firstTime := series.firstTime
    let flush := shouldFlushSeries i.cfg now series fp immediate
    if flush = .noFlush then i
    else
      let idx := fp % i.cfg.ConcurrentFlushes
      let r := enqueue (i.flushQueues.getD idx [])
        { fromTime := firstTime, userID := userID, fp := fp, immediate := immediate }
      let i1 := { i with flushQueues := i.flushQueues.set idx r.2 }
      if r.1 then
        { i1 with metrics :=
            { i1.metrics with flushReasonsTotal := i1.metrics.flushReasonsTotal + 1 } }
      else i1

/-- The reaping loop of `removeFlushedChunks` (flush.go lines 366-374):
drops the longest prefix of chunks that are flushed and whose `LastUpdate`
is more than `RetainPeriod` ago, returning the remaining chunks and the
number removed. -/
def reapChunks (retain now : Int) : List desc → List desc × Nat
  | [] => ([], 0)
  | d :: rest =>
    if d.flushed = true ∧ timeSub now d.LastUpdate > retain then
      let r := reapChunks retain now rest
      (r.1, r.2 + 1)
    else (d :: rest, 0)

/-- `removeFlushedChunks` (flush.go lines 364-378): reap retained flushed
chunks from the front of the series, decrement `memoryChunks` per removed
chunk, and remove the series from the tenant state when it has no chunks
left.  Returns the updated tenant state, metrics and series (the latter is
what the caller's series pointer now sees). -/
def removeFlushedChunks (cfg : Config) (now : Int) (ust : userState) (m : Metrics)
    (fp : Nat) (series : memorySeries) : userState × Metrics × memorySeries :=
  let r := reapChunks cfg.RetainPeriod now series.chunkDescs
  let series' := { series with chunkDescs := r.1 }
  let m' := { m with memoryChunks := m.memoryChunks - r.2 }
  if r.1.isEmpty then (ust.removeSeries fp, m', series')
  else (ust.set fp series', m', series')

/-- One iteration of the inner loop of `sweepUsers` (flush.go lines
124-134): sweep the series, reap its flushed chunks, read its first
unflushed-chunk time and fold it into the running `oldest`.  The tenant's
`userState` is threaded through the fold, modelling the Go pointer through
which both the sweep and the reaper see the same state. -/
def sweepPair (now : Int) (immediate : Bool) (id : String)
    (acc : Ingester × userState × Int) (pair : Nat × memorySeries) :
    Ingester × userState × Int :=
  let i1 := sweepSeries acc.1 now id pair.1 pair.2 immediate
  let r := removeFlushedChunks i1.cfg now acc.2.1 i1.metrics pair.1 pair.2
  let i2 := { i1 with metrics := r.2.1 }
  let first := r.2.2.firstUnflushedChunkTime
  (i2, r.1, if first > 0 ∧ (acc.2.2 = 0 ∨ first < acc.2.2) then first else acc.2.2)

/-- One iteration of the outer loop of `sweepUsers`: process every series of
one tenant (iterating the tenant's snapshot) and write the tenant state
back. -/
def sweepUser (now : Int) (immediate : Bool) (acc : Ingester × Int)
    (u : String × userState) : Ingester × Int :=
  let r := u.2.fpToSeries.foldl (sweepPair now immediate u.1) (acc.1, u.2, acc.2)
  ({ r.1 with userStates := updateUser r.1.userStates u.1 (fun _ => r.2.1) }, r.2.2)

/-- `sweepUsers` (flush.go lines 116-138): nothing happens with a nil chunk
store; otherwise every tenant and series is swept and reaped, and the
`oldestUnflushedChunkTimestamp` gauge is set to the folded `oldest` value in
Unix seconds. -/
def sweepUsers (i : Ingester) (now : Int) (immediate : Bool) : Ingester :=
  match i.chunkStore with
  | none => i
  | some _ =>
    let r := i.userStates.foldl (sweepUser now immediate) (i, 0)
    { r.1 with metrics :=
        { r.1.metrics with oldestUnflushedChunkTimestamp := timeUnix r.2 } }

/-- One iteration of a flush worker's loop (`flushLoop`, flush.go lines
250-268) for worker `j`: dequeue an op, run the executor, and on an error
for an `immediate` op re-enqueue it on the same queue with `from` advanced
by the backoff. -/
def flushLoopStep (i : Ingester) (now : Int) (j : Nat) : Ingester :=
  match dequeue (i.flushQueues.getD j []) with
  | none => i
  | some (op, rest) =>
    let i1 := { i with flushQueues := i.flushQueues.set j rest }
    let r := flushUserSeries i1 now op.userID op.fp op.immediate
    match r.1 with
    | .ok _ => r.2
    | .error _ =>
      if op.immediate then
        let op' := { op with fromTime := op.fromTime + flushBackoffMs }
        let q' := (enqueue (r.2.flushQueues.getD j []) op').2
        { r.2 with flushQueues := r.2.flushQueues.set j q' }
      else r.2

/-- Rendering of claim C1's description of `shouldFlushSeries`, written from
the claim's words for comparison with the source translation. -/
def shouldFlushSeriesClaim (cfg : Config) (now : Int) (series : memorySeries) (fp : Nat)
    (immediate : Bool) : flushReason :=
  if series.chunkDescs.length = 0 then .noFlush
  else if immediate then .reasonImmediate
  else if 1 < series.chunkDescs.length ∧ (series.chunkDescs.headD default).flushed = false then
    if (series.chunkDescs.headD default).flushReason ≠ .noFlush then
      (series.chunkDescs.headD default).flushReason
    else .reasonMultipleChunksInSeries
  else shouldFlushChunk cfg now (series.chunkDescs.headD default) fp series.isStale

/-- Claim C1: `shouldFlushSeries` returns NoFlush on a chunkless series,
Immediate when `immediate` is set, the recorded (or MultipleChunksInSeries)
reason when there is more than one chunk and the oldest is unflushed, and
otherwise defers to `shouldFlushChunk` on the oldest chunk with the series'
staleness. -/
theorem shouldFlushSeries_matches_claim (cfg : Config) (now : Int) (series : memorySeries)
    (fp : Nat) (immediate : Bool) :
    shouldFlushSeries cfg now series fp immediate =
      shouldFlushSeriesClaim cfg now series fp immediate := by
  obtain ⟨metric, cds, hcl, st⟩ := series
  cases cds with
  | nil => simp [shouldFlushSeries, shouldFlushSeriesClaim]
  | cons c0 rest =>
    by_cases himm : immediate
    · simp [shouldFlushSeries, shouldFlushSeriesClaim, himm]
    · simp only [shouldFlushSeries, shouldFlushSeriesClaim, List.headD_cons,
        List.length_cons, himm, if_false, Bool.false_eq_true, Nat.add_eq_zero,
        Nat.succ_ne_zero, and_false, if_neg (by omega : ¬rest.length + 1 = 0)]
      have hiff : (rest.length > 0 ∧ c0.flushed = false) ↔
          (1 < rest.length + 1 ∧ c0.flushed = false) := by
        constructor <;> rintro ⟨h1, h2⟩ <;> exact ⟨by omega, h2⟩
      rw [if_congr hiff rfl rfl]

/-- Rendering of claim C2's description of `shouldFlushChunk`, written from
the claim's words: jitter is the mathematical `fp mod ChunkAgeJitter` when
`ChunkAgeJitter > 0` and zero otherwise. -/
def shouldFlushChunkClaim (cfg : Config) (now : Int) (c : desc) (fp : Nat)
    (lastValueIsStale : Bool) : flushReason :=
  if c.flushed then .noFlush
  else
    let jitter : Int := if cfg.ChunkAgeJitter > 0 then (fp : Int) % cfg.ChunkAgeJitter else 0
    if timeSub c.LastTime c.FirstTime > cfg.MaxChunkAge - jitter then .reasonAged
    else if timeSub now c.LastUpdate > cfg.MaxChunkIdle then .reasonIdle
    else if cfg.MaxStaleChunkIdle > 0 ∧ lastValueIsStale = true ∧
        timeSub now c.LastUpdate > cfg.MaxStaleChunkIdle then .reasonStale
    else .noFlush

/-- Concrete configuration for the C2 counterexample: MaxChunkAge of 1ms
(1_000_000 ns) and a 3ns ChunkAgeJitter. -/
def cfgJitter : Config :=
  { ConcurrentFlushes := 1, MaxChunkAge := 1000000, ChunkAgeJitter := 3,
    MaxChunkIdle := 0, MaxStaleChunkIdle := 0, RetainPeriod := 0 }

/-- Concrete chunk for the C2 counterexample: unflushed, spanning exactly 1ms. -/
def chunkJitter : desc :=
  { C := { len := 1, size := 1, encodeOk := true }, FirstTime := 0, LastTime := 1,
    LastUpdate := 0, flushed := false, flushReason := .noFlush }

/-- Counterexample to claim C2 as stated: for the fingerprint 2^63 the Go
code converts the uint64 fingerprint to a negative int64, so its truncated
remainder by ChunkAgeJitter = 3 is -2 rather than the claimed
`fp mod 3 = 2`; the jitter is added to MaxChunkAge instead of subtracted,
and the code returns NoFlush where the claim's reading says Aged. -/
theorem shouldFlushChunk_claim_counterexample :
    shouldFlushChunk cfgJitter 0 chunkJitter (2 ^ 63) false = .noFlush ∧
    shouldFlushChunkClaim cfgJitter 0 chunkJitter (2 ^ 63) false = .reasonAged := by
  constructor <;> decide

/-- Claim C2 as amended: the claimed description of `shouldFlushChunk` is
correct whenever `ChunkAgeJitter ≥ 0` and the fingerprint is below 2^63
(so the uint64→int64 reinterpretation is the identity and Go's truncated
remainder is the mathematical mod); outside that range the jitter is the
truncated remainder of the int64 reinterpretation of fp, which can be
negative or (for negative ChunkAgeJitter) positive. -/
theorem shouldFlushChunk_matches_claim_small_fp (cfg : Config) (now : Int) (c : desc)
    (fp : Nat) (lastValueIsStale : Bool) (hJ : 0 ≤ cfg.ChunkAgeJitter) (hfp : fp < 2 ^ 63) :
    shouldFlushChunk cfg now c fp lastValueIsStale =
      shouldFlushChunkClaim cfg now c fp lastValueIsStale := by
  have h64 : fp % 2 ^ 64 = fp := Nat.mod_eq_of_lt (by omega)
  have htoInt : toInt64 fp = (fp : Int) := by
    simp only [toInt64, h64]
    rw [if_pos]
    exact_mod_cast hfp
  rcases lt_or_eq_of_le hJ with hpos | hzero
  · have : Int.tmod (toInt64 fp) cfg.ChunkAgeJitter = (fp : Int) % cfg.ChunkAgeJitter := by
      rw [htoInt, Int.tmod_eq_emod (by positivity) (le_of_lt hpos)]
    have hne : cfg.ChunkAgeJitter ≠ 0 := by omega
    simp only [shouldFlushChunk, shouldFlushChunkClaim, this]
    rw [if_pos hne, if_pos hpos]
  · simp [shouldFlushChunk, shouldFlushChunkClaim, ← hzero]

/-- Witness for the amended C2 theorem at ChunkAgeJitter = 5, fp = 7. -/
theorem shouldFlushChunk_matches_claim_small_fp_witness :
    (0 : Int) ≤ (cfgJitter.MaxChunkAge - 999995) ∧ (7 : Nat) < 2 ^ 63 ∧
    shouldFlushChunk { cfgJitter with ChunkAgeJitter := 5 } 0 chunkJitter 7 false =
      shouldFlushChunkClaim { cfgJitter with ChunkAgeJitter := 5 } 0 chunkJitter 7 false :=
  ⟨by decide, by decide,
    shouldFlushChunk_matches_claim_small_fp _ 0 chunkJitter 7 false (by decide) (by decide)⟩

theorem getSeriesList_set_self (l : List (Nat × memorySeries)) (fp : Nat)
    (s s0 : memorySeries) (h : getSeriesList l fp = some s0) :
    getSeriesList (setSeriesList l fp s) fp = some s := by
  induction l with
  | nil => simp [getSeriesList] at h
  | cons p rest ih =>
    by_cases hp : p.1 = fp
    · simp [getSeriesList, setSeriesList, hp]
    · simp only [getSeriesList, setSeriesList, if_neg hp] at h ⊢
      exact ih h

theorem userState_get_set_self (u : userState) (fp : Nat) (s s0 : memorySeries)
    (h : u.get fp = some s0) : (u.set fp s).get fp = some s :=
  getSeriesList_set_self u.fpToSeries fp s s0 h

theorem getSeriesList_remove_self (l : List (Nat × memorySeries)) (fp : Nat) :
    getSeriesList (removeSeriesList l fp) fp = none := by
  induction l with
  | nil => simp [getSeriesList, removeSeriesList]
  | cons p rest ih =>
    by_cases hp : p.1 = fp
    · simpa [removeSeriesList, hp] using ih
    · simpa [getSeriesList, removeSeriesList, hp] using ih

theorem userState_get_remove_self (u : userState) (fp : Nat) :
    (u.removeSeries fp).get fp = none :=
  getSeriesList_remove_self u.fpToSeries fp

theorem getSeriesList_set_other (l : List (Nat × memorySeries)) (fp fp' : Nat)
    (s : memorySeries) (h : fp' ≠ fp) :
    getSeriesList (setSeriesList l fp s) fp' = getSeriesList l fp' := by
  induction l with
  | nil => simp [setSeriesList]
  | cons p rest ih =>
    by_cases hp : p.1 = fp
    · have : ¬p.1 = fp' := by rw [hp]; exact fun hc => h hc.symm
      simp only [getSeriesList, setSeriesList, if_pos hp, if_neg this]
      exact ih
    · by_cases hp' : p.1 = fp'
      · simp [getSeriesList, setSeriesList, hp, hp', h]
      · simp only [getSeriesList, setSeriesList, if_neg hp, if_neg hp']
        exact ih

theorem getSeriesList_remove_other (l : List (Nat × memorySeries)) (fp fp' : Nat)
    (h : fp' ≠ fp) :
    getSeriesList (removeSeriesList l fp) fp' = getSeriesList l fp' := by
  induction l with
  | nil => simp [removeSeriesList]
  | cons p rest ih =>
    by_cases hp : p.1 = fp
    · have : ¬p.1 = fp' := by rw [hp]; exact fun hc => h hc.symm
      simp only [getSeriesList, removeSeriesList, if_pos hp, if_neg this]
      exact ih
    · by_cases hp' : p.1 = fp'
      · simp [getSeriesList, removeSeriesList, hp, hp', h]
      · simp only [getSeriesList, removeSeriesList, if_neg hp, if_neg hp']
        exact ih

theorem lookupUser_update_self (l : List (String × userState)) (id : String)
    (f : userState → userState) (u : userState) (h : lookupUser l id = some u) :
    lookupUser (updateUser l id f) id = some (f u) := by
  induction l with
  | nil => simp [lookupUser] at h
  | cons p rest ih =>
    by_cases hp : p.1 = id
    · simp only [lookupUser, if_pos hp, Option.some_inj] at h
      simp [lookupUser, updateUser, hp, h]
    · simp only [lookupUser, updateUser, if_neg hp] at h ⊢
      exact ih h

theorem lookupUser_update_other (l : List (String × userState)) (id id' : String)
    (f : userState → userState) (h : id' ≠ id) :
    lookupUser (updateUser l id f) id' = lookupUser l id' := by
  induction l with
  | nil => simp [updateUser]
  | cons p rest ih =>
    by_cases hp : p.1 = id
    · have : ¬p.1 = id' := by rw [hp]; exact fun hc => h hc.symm
      simp only [lookupUser, updateUser, if_pos hp, if_neg this]
      exact ih
    · by_cases hp' : p.1 = id'
      · simp [lookupUser, updateUser, hp, hp', h]
      · simp only [lookupUser, updateUser, if_neg hp, if_neg hp']
        exact ih

theorem reapChunks_dropWhile (retain now : Int) (l : List desc) :
    (reapChunks retain now l).1 =
      l.dropWhile (fun d => d.flushed && decide (timeSub now d.LastUpdate > retain)) ∧
    (reapChunks retain now l).2 =
      (l.takeWhile (fun d => d.flushed && decide (timeSub now d.LastUpdate > retain))).length := by
  induction l with
  | nil => simp [reapChunks]
  | cons d rest ih =>
    by_cases hd : d.flushed = true ∧ timeSub now d.LastUpdate > retain
    · have hb : (d.flushed && decide (timeSub now d.LastUpdate > retain)) = true := by
        simp [hd.1, hd.2]
      simp only [reapChunks, if_pos hd, List.dropWhile_cons, List.takeWhile_cons, hb,
        if_true, List.length_cons]
      exact ⟨ih.1, by rw [ih.2]⟩
    · have hb : (d.flushed && decide (timeSub now d.LastUpdate > retain)) = false := by
        by_cases hf : d.flushed = true
        · simp only [not_and] at hd
          simp only [hf, Bool.true_and]
          exact decide_eq_false (hd hf)
        · have hff : d.flushed = false := by simpa using hf
          simp [hff]
      simp [reapChunks, if_neg hd, List.dropWhile_cons, List.takeWhile_cons, hb]

/-- Claim C5: `removeFlushedChunks` removes exactly the longest prefix of
chunks that are flushed and have rested for more than RetainPeriod since
their `LastUpdate`; `memoryChunks` goes down by one per removed chunk; the
series is dropped from the tenant state exactly when it is left chunkless;
and every removed chunk was flushed with its `LastUpdate` more than
RetainPeriod in the past. -/
theorem removeFlushedChunks_spec (cfg : Config) (now : Int) (ust : userState)
    (m : Metrics) (fp : Nat) (series : memorySeries) (ust' : userState) (m' : Metrics)
    (series' : memorySeries)
    (hS : ust.get fp = some series)
    (hR : removeFlushedChunks cfg now ust m fp series = (ust', m', series')) :
    series'.chunkDescs = series.chunkDescs.dropWhile
        (fun d => d.flushed && decide (timeSub now d.LastUpdate > cfg.RetainPeriod)) ∧
    (∀ d ∈ series.chunkDescs.takeWhile
        (fun d => d.flushed && decide (timeSub now d.LastUpdate > cfg.RetainPeriod)),
      d.flushed = true ∧ timeSub now d.LastUpdate > cfg.RetainPeriod) ∧
    m'.memoryChunks = m.memoryChunks - ((series.chunkDescs.takeWhile
        (fun d => d.flushed && decide (timeSub now d.LastUpdate > cfg.RetainPeriod))).length : Int) ∧
    (series'.chunkDescs = [] → ust'.get fp = none) ∧
    (series'.chunkDescs ≠ [] → ust'.get fp = some series') := by
  have hreap := reapChunks_dropWhile cfg.RetainPeriod now series.chunkDescs
  have hmem : ∀ d ∈ series.chunkDescs.takeWhile
      (fun d => d.flushed && decide (timeSub now d.LastUpdate > cfg.RetainPeriod)),
      d.flushed = true ∧ timeSub now d.LastUpdate > cfg.RetainPeriod := by
    intro d hd
    have := List.mem_takeWhile_imp hd
    constructor
    · exact (Bool.and_eq_true _ _ |>.mp this).1
    · exact of_decide_eq_true (Bool.and_eq_true _ _ |>.mp this).2
  simp only [removeFlushedChunks] at hR
  by_cases hempty : (reapChunks cfg.RetainPeriod now series.chunkDescs).1.isEmpty
  · rw [if_pos hempty] at hR
    injection hR with hA hrest
    injection hrest with hB hC
    subst hA
    subst hB
    subst hC
    refine ⟨by simpa using hreap.1, hmem, by simp [hreap.2], ?_, ?_⟩
    · intro _
      exact userState_get_remove_self ust fp
    · intro hne
      exact absurd (by simpa using hempty) hne
  · rw [if_neg hempty] at hR
    injection hR with hA hrest
    injection hrest with hB hC
    subst hA
    subst hB
    subst hC
    refine ⟨by simpa using hreap.1, hmem, by simp [hreap.2], ?_, ?_⟩
    · intro hnil
      exact absurd (by simpa using hnil) hempty
    · intro _
      exact userState_get_set_self ust fp _ series hS

/-- Concrete reaper scenario: one flushed chunk past its retention and one
live chunk behind it. -/
def chunkFlushedOld : desc :=
  { C := ⟨3, 7, true⟩, FirstTime := 1, LastTime := 2, LastUpdate := 0,
    flushed := true, flushReason := .noFlush }

/-- Concrete unflushed chunk used by the reaper scenario. -/
def chunkLive : desc :=
  { C := ⟨4, 9, true⟩, FirstTime := 3, LastTime := 4, LastUpdate := 10,
    flushed := false, flushReason := .noFlush }

/-- Concrete series holding the two scenario chunks. -/
def seriesRetain : memorySeries :=
  { metric := 1, chunkDescs := [chunkFlushedOld, chunkLive],
    headChunkClosed := false, lastSampleStale := false }

/-- Concrete tenant state holding the scenario series at fingerprint 5. -/
def ustRetain : userState := ⟨[(5, seriesRetain)]⟩

/-- Configuration for the reaper scenario (RetainPeriod 0). -/
def cfgRetain : Config :=
  { ConcurrentFlushes := 1, MaxChunkAge := 3600000000000, ChunkAgeJitter := 0,
    MaxChunkIdle := 300000000000, MaxStaleChunkIdle := 0, RetainPeriod := 0 }

/-- All-zero metrics record. -/
def mZero : Metrics := ⟨0, 0, 0, 0, 0, 0, 0, 0⟩

/-- Witness for C5: the retained flushed chunk is reaped, the live chunk
survives. -/
theorem removeFlushedChunks_spec_witness :
    ustRetain.get 5 = some seriesRetain ∧
    ({ seriesRetain with chunkDescs := [chunkLive] } : memorySeries).chunkDescs =
      seriesRetain.chunkDescs.dropWhile
        (fun d => d.flushed && decide (timeSub 10 d.LastUpdate > cfgRetain.RetainPeriod)) :=
  ⟨by decide,
    (removeFlushedChunks_spec cfgRetain 10 ustRetain mZero 5 seriesRetain
      (ustRetain.set 5 { seriesRetain with chunkDescs := [chunkLive] })
      { mZero with memoryChunks := -1 }
      { seriesRetain with chunkDescs := [chunkLive] }
      (by decide) (by decide)).1⟩

theorem stampLast_map_flushed (l : List desc) (r : flushReason) :
    (stampLast l r).map (fun d => (d.flushed, d.LastUpdate)) =
      l.map (fun d => (d.flushed, d.LastUpdate)) := by
  induction l with
  | nil => rfl
  | cons d rest ih =>
    cases rest with
    | nil => rfl
    | cons d2 rest2 => simpa [stampLast] using ih

theorem pickChunks_preserves_flushed (cfg : Config) (now : Int) (series : memorySeries)
    (fp : Nat) (immediate : Bool) :
    ((pickChunks cfg now series fp immediate).1).chunkDescs.map
        (fun d => (d.flushed, d.LastUpdate)) =
      series.chunkDescs.map (fun d => (d.flushed, d.LastUpdate)) := by
  by_cases himm : immediate
  · simp [pickChunks, himm, memorySeries.closeHead, stampLast_map_flushed]
  · by_cases hcr : shouldFlushChunk cfg now series.head fp series.isStale ≠ .noFlush
    · simp [pickChunks, himm, if_pos hcr, memorySeries.closeHead, stampLast_map_flushed]
    · simp [pickChunks, himm, if_neg hcr]

/-- Claim C3: when encoding any chunk or the store `Put` fails, the executor
returns that error and mutates none of the claim's state: the write-back of
the (possibly head-closed) series leaves every chunk's `flushed` and
`LastUpdate` untouched, the series stays in its tenant state, and the
metrics record — including the stored-chunk counters and histogram
observation counts — is exactly the input one. -/
theorem flushUserSeries_error_frame (i : Ingester) (now : Int) (userID : String) (fp : Nat)
    (immediate : Bool) (ustate : userState) (series : memorySeries) (e : String)
    (hU : lookupUser i.userStates userID = some ustate)
    (hS : ustate.get fp = some series)
    (hR : shouldFlushSeries i.cfg now series fp immediate ≠ .noFlush)
    (hD : ¬((shouldFlushSeries i.cfg now series fp immediate = .reasonIdle ∨
          shouldFlushSeries i.cfg now series fp immediate = .reasonStale) ∧
        (pickChunks i.cfg now series fp immediate).1.headChunkClosed = true ∧
        0 < i.limits userID ∧
        (chunksLen (pickChunks i.cfg now series fp immediate).2 : Int) < i.limits userID))
    (hNE : (pickChunks i.cfg now series fp immediate).2.isEmpty = false)
    (hErr : flushChunks i.chunkStorePut userID fp
        (pickChunks i.cfg now series fp immediate).1.metric
        (pickChunks i.cfg now series fp immediate).2 i.metrics = .error e) :
    flushUserSeries i now userID fp immediate =
      (.error e,
        { i with userStates := updateUser i.userStates userID
                    (fun _ => ustate.set fp (pickChunks i.cfg now series fp immediate).1) }) ∧
    ((pickChunks i.cfg now series fp immediate).1).chunkDescs.map
        (fun d => (d.flushed, d.LastUpdate)) =
      series.chunkDescs.map (fun d => (d.flushed, d.LastUpdate)) ∧
    (lookupUser (flushUserSeries i now userID fp immediate).2.userStates userID).bind
        (fun u => u.get fp) = some (pickChunks i.cfg now series fp immediate).1 ∧
    (flushUserSeries i now userID fp immediate).2.metrics = i.metrics := by
  have hmain : flushUserSeries i now userID fp immediate =
      (.error e,
        { i with userStates := updateUser i.userStates userID
                    (fun _ => ustate.set fp (pickChunks i.cfg now series fp immediate).1) }) := by
    simp only [flushUserSeries, hU, hS]
    rw [if_neg hR, if_neg hD, if_neg (by simp [hNE]), hErr]
  refine ⟨hmain, pickChunks_preserves_flushed i.cfg now series fp immediate, ?_, ?_⟩
  · rw [hmain]
    have h1 := lookupUser_update_self i.userStates userID
      (fun _ => ustate.set fp (pickChunks i.cfg now series fp immediate).1) ustate hU
    simp only [h1, Option.bind_some]
    exact userState_get_set_self ustate fp _ series hS
  · rw [hmain]

/-- Concrete series for the failed-flush scenario: one open unflushed chunk. -/
def seriesOneChunk : memorySeries :=
  { metric := 3, chunkDescs := [⟨⟨2, 8, true⟩, 0, 1, 0, false, .noFlush⟩],
    headChunkClosed := false, lastSampleStale := false }

/-- Ingester whose chunk store fails every Put. -/
def ingFailingPut : Ingester :=
  { cfg := cfgRetain, limits := fun _ => 0, chunkStore := some false,
    userStates := [("u", ⟨[(2, seriesOneChunk)]⟩)], flushQueues := [[]], metrics := mZero }

/-- Witness for C3: an immediate flush against a failing store returns the
Put error and leaves the metrics untouched. -/
theorem flushUserSeries_error_frame_witness :
    lookupUser ingFailingPut.userStates "u" = some ⟨[(2, seriesOneChunk)]⟩ ∧
    (flushUserSeries ingFailingPut 0 "u" 2 true).2.metrics = ingFailingPut.metrics :=
  ⟨by decide,
    (flushUserSeries_error_frame ingFailingPut 0 "u" 2 true ⟨[(2, seriesOneChunk)]⟩
      seriesOneChunk "chunk store put failed" (by decide) (by decide) (by decide)
      (by decide) (by decide) (by rfl)).2.2.2⟩

theorem markFlushed_take_drop (l : List desc) (n : Nat) (now : Int) :
    markFlushed l n now =
      (l.take n).map (fun d => { d with flushed := true, LastUpdate := now }) ++ l.drop n := by
  induction l generalizing n with
  | nil => cases n <;> simp [markFlushed]
  | cons d rest ih =>
    cases n with
    | zero => simp [markFlushed]
    | succ k => simp [markFlushed, ih]

theorem recordStats_memoryChunks (ds : List desc) (m : Metrics) :
    (recordStats ds m).memoryChunks = m.memoryChunks ∧
    (recordStats ds m).droppedChunks = m.droppedChunks := by
  induction ds generalizing m with
  | nil => exact ⟨rfl, rfl⟩
  | cons d rest ih => simpa [recordStats] using ih _

theorem flushChunks_ok_memoryChunks (putOk : Bool) (userID : String) (fp : Nat)
    (metric : Nat) (chunkDescs : List desc) (m m1 : Metrics)
    (h : flushChunks putOk userID fp metric chunkDescs m = .ok m1) :
    m1.memoryChunks = m.memoryChunks ∧ m1.droppedChunks = m.droppedChunks := by
  simp only [flushChunks] at h
  rcases hbw : buildWireChunks userID fp metric chunkDescs with e | ws
  · rw [hbw] at h
    exact absurd h (by simp)
  · rw [hbw] at h
    rcases hput : putOk with _ | _
    · rw [hput] at h
      exact absurd h (by simp)
    · rw [hput] at h
      simp only [if_true, Except.ok.injEq] at h
      rw [← h]
      simpa using recordStats_memoryChunks chunkDescs _

/-- Claim C4: when `chunkStore.Put` succeeds on a non-empty chunk range, the
immediate path deletes the series and drops `memoryChunks` by the number of
chunks flushed, while the non-immediate path marks exactly the selected
oldest chunks `flushed` with `LastUpdate = now` and keeps the series (and
all of its chunks) in memory. -/
theorem flushUserSeries_success_marks (i : Ingester) (now : Int) (userID : String)
    (fp : Nat) (immediate : Bool) (ustate : userState) (series : memorySeries) (m1 : Metrics)
    (hU : lookupUser i.userStates userID = some ustate)
    (hS : ustate.get fp = some series)
    (hR : shouldFlushSeries i.cfg now series fp immediate ≠ .noFlush)
    (hD : ¬((shouldFlushSeries i.cfg now series fp immediate = .reasonIdle ∨
          shouldFlushSeries i.cfg now series fp immediate = .reasonStale) ∧
        (pickChunks i.cfg now series fp immediate).1.headChunkClosed = true ∧
        0 < i.limits userID ∧
        (chunksLen (pickChunks i.cfg now series fp immediate).2 : Int) < i.limits userID))
    (hNE : (pickChunks i.cfg now series fp immediate).2.isEmpty = false)
    (hOK : flushChunks i.chunkStorePut userID fp
        (pickChunks i.cfg now series fp immediate).1.metric
        (pickChunks i.cfg now series fp immediate).2 i.metrics = .ok m1) :
    (flushUserSeries i now userID fp immediate).1 = .ok () ∧
    (immediate = true →
      (lookupUser (flushUserSeries i now userID fp immediate).2.userStates userID).bind
          (fun u => u.get fp) = none ∧
      (flushUserSeries i now userID fp immediate).2.metrics.memoryChunks =
        i.metrics.memoryChunks - ((pickChunks i.cfg now series fp immediate).2.length : Int)) ∧
    (immediate = false →
      (lookupUser (flushUserSeries i now userID fp immediate).2.userStates userID).bind
          (fun u => u.get fp) =
        some { (pickChunks i.cfg now series fp immediate).1 with
               chunkDescs :=
                 (((pickChunks i.cfg now series fp immediate).1.chunkDescs.take
                     (pickChunks i.cfg now series fp immediate).2.length).map
                   (fun d => { d with flushed := true, LastUpdate := now })) ++
                 (pickChunks i.cfg now series fp immediate).1.chunkDescs.drop
                   (pickChunks i.cfg now series fp immediate).2.length } ∧
      (flushUserSeries i now userID fp immediate).2.metrics = m1) := by
  have hmem := flushChunks_ok_memoryChunks i.chunkStorePut userID fp
    (pickChunks i.cfg now series fp immediate).1.metric
    (pickChunks i.cfg now series fp immediate).2 i.metrics m1 hOK
  cases immediate with
  | true =>
    have hmain : flushUserSeries i now userID fp true =
        (.ok (),
          { i with
            userStates := updateUser (updateUser i.userStates userID
                (fun _ => ustate.set fp (pickChunks i.cfg now series fp true).1)) userID
              (fun _ => (ustate.set fp (pickChunks i.cfg now series fp true).1).removeSeries fp),
            metrics := { m1 with memoryChunks :=
              m1.memoryChunks - ((pickChunks i.cfg now series fp true).2.length : Int) } }) := by
      simp only [flushUserSeries, hU, hS]
      rw [if_neg hR, if_neg hD, if_neg (by simp [hNE]), hOK]
      exact rfl
    refine ⟨by rw [hmain], fun _ => ⟨?_, ?_⟩, fun hc => by simp at hc⟩
    · rw [hmain]
      have h1 := lookupUser_update_self i.userStates userID
        (fun _ => ustate.set fp (pickChunks i.cfg now series fp true).1) ustate hU
      have h2 := lookupUser_update_self _ userID
        (fun _ => (ustate.set fp (pickChunks i.cfg now series fp true).1).removeSeries fp)
        _ h1
      simp only [h2, Option.bind_some]
      exact userState_get_remove_self _ fp
    · rw [hmain]
      simpa using hmem.1
  | false =>
    have hmain : flushUserSeries i now userID fp false =
        (.ok (),
          { i with
            userStates := updateUser (updateUser i.userStates userID
                (fun _ => ustate.set fp (pickChunks i.cfg now series fp false).1)) userID
              (fun _ => (ustate.set fp (pickChunks i.cfg now series fp false).1).set fp
                { (pickChunks i.cfg now series fp false).1 with
                  chunkDescs := markFlushed
                    (pickChunks i.cfg now series fp false).1.chunkDescs
                    (pickChunks i.cfg now series fp false).2.length now }),
            metrics := m1 }) := by
      simp only [flushUserSeries, hU, hS]
      rw [if_neg hR, if_neg hD, if_neg (by simp [hNE]), hOK]
      exact rfl
    refine ⟨by rw [hmain], fun hc => by simp at hc, fun _ => ⟨?_, by rw [hmain]⟩⟩
    rw [hmain, markFlushed_take_drop]
    have h1 := lookupUser_update_self i.userStates userID
      (fun _ => ustate.set fp (pickChunks i.cfg now series fp false).1) ustate hU
    have h2 := lookupUser_update_self _ userID
      (fun _ => (ustate.set fp (pickChunks i.cfg now series fp false).1).set fp
        { (pickChunks i.cfg now series fp false).1 with
          chunkDescs :=
            (((pickChunks i.cfg now series fp false).1.chunkDescs.take
                (pickChunks i.cfg now series fp false).2.length).map
              (fun d => { d with flushed := true, LastUpdate := now })) ++
            (pickChunks i.cfg now series fp false).1.chunkDescs.drop
              (pickChunks i.cfg now series fp false).2.length }) _ h1
    simp only [h2, Option.bind_some]
    have hget1 := userState_get_set_self ustate fp
      (pickChunks i.cfg now series fp false).1 series hS
    exact userState_get_set_self _ fp _ (pickChunks i.cfg now series fp false).1 hget1

/-- Concrete series with a closed-ish first chunk and an open head (spec
scenario S3): two chunks, the older one unflushed. -/
def seriesTwoChunks : memorySeries :=
  { metric := 3,
    chunkDescs := [⟨⟨2, 8, true⟩, 0, 1, 0, false, .noFlush⟩,
                   ⟨⟨2, 8, true⟩, 2, 3, 0, false, .noFlush⟩],
    headChunkClosed := false, lastSampleStale := false }

/-- Ingester with a working chunk store holding `seriesTwoChunks`. -/
def ingWorkingPut : Ingester :=
  { cfg := cfgRetain, limits := fun _ => 0, chunkStore := some true,
    userStates := [("u", ⟨[(2, seriesTwoChunks)]⟩)], flushQueues := [[]], metrics := mZero }

/-- Metrics after storing the one wire chunk of the S3 scenario. -/
def mAfterPut : Metrics := ⟨0, 0, 1, 8, 4, 0, 0, 1⟩

/-- Witness for C4: the non-immediate flush of the older chunk succeeds. -/
theorem flushUserSeries_success_marks_witness :
    lookupUser ingWorkingPut.userStates "u" = some ⟨[(2, seriesTwoChunks)]⟩ ∧
    (flushUserSeries ingWorkingPut 0 "u" 2 false).1 = .ok () :=
  ⟨by decide,
    (flushUserSeries_success_marks ingWorkingPut 0 "u" 2 false ⟨[(2, seriesTwoChunks)]⟩
      seriesTwoChunks mAfterPut (by decide) (by decide) (by decide) (by decide)
      (by decide) (by rfl)).1⟩

/-- Claim C6: when the re-checked reason is Idle or Stale, the head is
closed, the tenant's MinChunkLength is positive and the selected chunks sum
below it, the executor deletes the series, decrements `memoryChunks` and
increments `droppedChunks` by the number of selected chunks, issues no
`Put`, touches no stored-chunk counter, and returns success. -/
theorem flushUserSeries_undersize_drop (i : Ingester) (now : Int) (userID : String)
    (fp : Nat) (immediate : Bool) (ustate : userState) (series : memorySeries)
    (hU : lookupUser i.userStates userID = some ustate)
    (hS : ustate.get fp = some series)
    (hR2 : shouldFlushSeries i.cfg now series fp immediate = .reasonIdle ∨
      shouldFlushSeries i.cfg now series fp immediate = .reasonStale)
    (hHC : (pickChunks i.cfg now series fp immediate).1.headChunkClosed = true)
    (hMin : 0 < i.limits userID)
    (hLen : (chunksLen (pickChunks i.cfg now series fp immediate).2 : Int) < i.limits userID) :
    flushUserSeries i now userID fp immediate =
      (.ok (),
        { i with
          userStates := updateUser i.userStates userID (fun _ => ustate.removeSeries fp),
          metrics :=
            { i.metrics with
              memoryChunks := i.metrics.memoryChunks -
                ((pickChunks i.cfg now series fp immediate).2.length : Int),
              droppedChunks := i.metrics.droppedChunks +
                (pickChunks i.cfg now series fp immediate).2.length } }) ∧
    (lookupUser (flushUserSeries i now userID fp immediate).2.userStates userID).bind
        (fun u => u.get fp) = none ∧
    (flushUserSeries i now userID fp immediate).2.metrics.putCalls = i.metrics.putCalls ∧
    (flushUserSeries i now userID fp immediate).2.metrics.chunksStoredTotal =
      i.metrics.chunksStoredTotal := by
  have hR : shouldFlushSeries i.cfg now series fp immediate ≠ .noFlush := by
    rcases hR2 with h | h <;> rw [h] <;> simp
  have hmain : flushUserSeries i now userID fp immediate =
      (.ok (),
        { i with
          userStates := updateUser i.userStates userID (fun _ => ustate.removeSeries fp),
          metrics :=
            { i.metrics with
              memoryChunks := i.metrics.memoryChunks -
                ((pickChunks i.cfg now series fp immediate).2.length : Int),
              droppedChunks := i.metrics.droppedChunks +
                (pickChunks i.cfg now series fp immediate).2.length } }) := by
    simp only [flushUserSeries, hU, hS]
    rw [if_neg hR, if_pos ⟨hR2, hHC, hMin, hLen⟩]
  refine ⟨hmain, ?_, by rw [hmain], by rw [hmain]⟩
  rw [hmain]
  have h1 := lookupUser_update_self i.userStates userID
    (fun _ => ustate.removeSeries fp) ustate hU
  simp only [h1, Option.bind_some]
  exact userState_get_remove_self ustate fp

/-- Concrete undersized idle series (spec scenario S5): one chunk of length
50 against a MinChunkLength of 100. -/
def seriesSmall : memorySeries :=
  { metric := 3, chunkDescs := [⟨⟨50, 100, true⟩, 0, 1, 0, false, .noFlush⟩],
    headChunkClosed := false, lastSampleStale := false }

/-- Ingester for the undersize-drop scenario (MinChunkLength 100 for every
tenant). -/
def ingUndersize : Ingester :=
  { cfg := cfgRetain, limits := fun _ => 100, chunkStore := some true,
    userStates := [("u", ⟨[(2, seriesSmall)]⟩)], flushQueues := [[]], metrics := mZero }

/-- Witness for C6: the idle undersized series is dropped without a Put. -/
theorem flushUserSeries_undersize_drop_witness :
    lookupUser ingUndersize.userStates "u" = some ⟨[(2, seriesSmall)]⟩ ∧
    (flushUserSeries ingUndersize 400000 "u" 2 false).2.metrics.putCalls =
      ingUndersize.metrics.putCalls :=
  ⟨by decide,
    (flushUserSeries_undersize_drop ingUndersize 400000 "u" 2 false ⟨[(2, seriesSmall)]⟩
      seriesSmall (by decide) (by decide) (Or.inl (by decide)) (by decide) (by decide)
      (by decide)).2.2.1⟩

/-- Claim C10: with a nil chunk store `sweepUsers` is the identity — no
tenant is visited, nothing is enqueued or reaped, and the oldest-unflushed
gauge keeps its previous value. -/
theorem sweepUsers_nil_store (i : Ingester) (now : Int) (immediate : Bool)
    (h : i.chunkStore = none) : sweepUsers i now immediate = i := by
  simp only [sweepUsers, h]

/-- Ingester with a nil chunk store and a sweepable-looking series. -/
def ingNilStore : Ingester :=
  { cfg := cfgRetain, limits := fun _ => 0, chunkStore := none,
    userStates := [("u", ⟨[(2, seriesSmall)]⟩)], flushQueues := [[]], metrics := mZero }

/-- Witness for C10. -/
theorem sweepUsers_nil_store_witness :
    ingNilStore.chunkStore = none ∧ sweepUsers ingNilStore 400000 true = ingNilStore :=
  ⟨rfl, sweepUsers_nil_store ingNilStore 400000 true rfl⟩

theorem flushUserSeries_frame (i : Ingester) (now : Int) (userID : String) (fp : Nat)
    (immediate : Bool) :
    (flushUserSeries i now userID fp immediate).2.flushQueues = i.flushQueues ∧
    (flushUserSeries i now userID fp immediate).2.cfg = i.cfg ∧
    (flushUserSeries i now userID fp immediate).2.chunkStore = i.chunkStore := by
  unfold flushUserSeries
  dsimp only
  repeat' split
  all_goals exact ⟨rfl, rfl, rfl⟩

theorem mem_insertByFrom_self (o : flushOp) (q : List flushOp) : o ∈ insertByFrom o q := by
  induction q with
  | nil => simp [insertByFrom]
  | cons p rest ih =>
    by_cases h : o.fromTime < p.fromTime <;> simp [insertByFrom, h, ih]

theorem mem_insertByFrom (x o : flushOp) (q : List flushOp) (h : x ∈ insertByFrom o q) :
    x = o ∨ x ∈ q := by
  induction q with
  | nil => simpa [insertByFrom] using h
  | cons p rest ih =>
    by_cases hc : o.fromTime < p.fromTime
    · simp only [insertByFrom, if_pos hc, List.mem_cons] at h
      rcases h with h | h | h
      · exact Or.inl h
      · exact Or.inr (by simp [h])
      · exact Or.inr (by simp [h])
    · simp only [insertByFrom, if_neg hc, List.mem_cons] at h
      rcases h with h | h
      · exact Or.inr (by simp [h])
      · rcases ih h with h | h
        · exact Or.inl h
        · exact Or.inr (by simp [h])

theorem getD_set_self {α : Type} (l : List α) (n : Nat) (x d : α) (h : n < l.length) :
    (l.set n x).getD n d = x := by
  simp [List.getD_eq_getElem?_getD, List.getElem?_set_self', List.getElem?_eq_getElem h]

theorem getD_set_ne {α : Type} (l : List α) (n m : Nat) (x d : α) (h : m ≠ n) :
    (l.set n x).getD m d = l.getD m d := by
  simp [List.getD_eq_getElem?_getD, List.getElem?_set_ne (fun hc => h hc.symm)]

/-- Claim C8: when the executor fails for a dequeued op, an `immediate` op
is re-enqueued on the same shard queue with `from` advanced by the 1s
backoff, while a non-immediate op is not re-enqueued at all (its queue is
left exactly as the dequeue left it, and no other queue is touched). -/
theorem flushLoop_error_requeue (i : Ingester) (now : Int) (j : Nat) (op : flushOp)
    (rest : List flushOp) (e : String)
    (hj : j < i.flushQueues.length)
    (hdeq : dequeue (i.flushQueues.getD j []) = some (op, rest))
    (hdup : ∀ p ∈ rest,
      ¬(p.userID = op.userID ∧ p.fp = op.fp ∧ p.immediate = op.immediate))
    (hres : (flushUserSeries { i with flushQueues := i.flushQueues.set j rest } now
        op.userID op.fp op.immediate).1 = .error e) :
    (op.immediate = true →
      (flushLoopStep i now j).flushQueues.getD j [] =
        insertByFrom { op with fromTime := op.fromTime + flushBackoffMs } rest ∧
      { op with fromTime := op.fromTime + flushBackoffMs } ∈
        (flushLoopStep i now j).flushQueues.getD j [] ∧
      (∀ j', j' ≠ j → (flushLoopStep i now j).flushQueues.getD j' [] =
        i.flushQueues.getD j' [])) ∧
    (op.immediate = false →
      (flushLoopStep i now j).flushQueues = i.flushQueues.set j rest) := by
  have hq := (flushUserSeries_frame { i with flushQueues := i.flushQueues.set j rest } now
    op.userID op.fp op.immediate).1
  have hany : (rest.any (fun p => p.userID == op.userID && p.fp == op.fp &&
      p.immediate == op.immediate)) = false := by
    rw [List.any_eq_false]
    intro p hp
    have := hdup p hp
    simp only [Bool.and_eq_true, beq_iff_eq]
    exact fun hc => this ⟨hc.1.1, hc.1.2, hc.2⟩
  obtain ⟨ofrom, ouid, ofp, oimm⟩ := op
  dsimp only at hany hdup hres hq
  cases oimm with
  | true =>
    refine ⟨fun _ => ?_, fun hc => by simp at hc⟩
    have hstep : flushLoopStep i now j =
        { (flushUserSeries { i with flushQueues := i.flushQueues.set j rest } now
            ouid ofp true).2 with
          flushQueues :=
            ((flushUserSeries { i with flushQueues := i.flushQueues.set j rest } now
              ouid ofp true).2.flushQueues).set j
              (insertByFrom ⟨ofrom + flushBackoffMs, ouid, ofp, true⟩ rest) } := by
      simp only [flushLoopStep, hdeq]
      rcases hflush : flushUserSeries { i with flushQueues := i.flushQueues.set j rest } now
          ouid ofp true with ⟨res, i2⟩
      rw [hflush] at hres hq
      simp only at hres hq
      rw [hres]
      dsimp only
      rw [if_pos trivial]
      simp only [enqueue, hq]
      rw [getD_set_self i.flushQueues j rest [] hj]
      rw [hany]
      rfl
    rw [hstep, hq]
    have hlen : j < (i.flushQueues.set j rest).length := by simpa using hj
    refine ⟨?_, ?_, ?_⟩
    · exact getD_set_self _ j _ [] hlen
    · rw [getD_set_self _ j _ [] hlen]
      exact mem_insertByFrom_self _ rest
    · intro j' hj'
      rw [getD_set_ne _ j j' _ [] hj', getD_set_ne _ j j' _ [] hj']
  | false =>
    refine ⟨fun hc => by simp at hc, fun _ => ?_⟩
    have hstep : flushLoopStep i now j =
        (flushUserSeries { i with flushQueues := i.flushQueues.set j rest } now
          ouid ofp false).2 := by
      simp only [flushLoopStep, hdeq]
      rcases hflush : flushUserSeries { i with flushQueues := i.flushQueues.set j rest } now
          ouid ofp false with ⟨res, i2⟩
      rw [hflush] at hres
      simp only at hres
      rw [hres]
      rfl
    rw [hstep, hq]

/-- Shutdown-path flush op for fingerprint 2 of tenant "u". -/
def opShutdown : flushOp := ⟨0, "u", 2, true⟩

/-- Ingester with a failing store and `opShutdown` queued on shard 0. -/
def ingRetry : Ingester :=
  { cfg := cfgRetain, limits := fun _ => 0, chunkStore := some false,
    userStates := [("u", ⟨[(2, seriesOneChunk)]⟩)], flushQueues := [[opShutdown]],
    metrics := mZero }

/-- Witness for C8: after the failed immediate flush the op sits on shard 0
again with `from` advanced by one second (1000 ms). -/
theorem flushLoop_error_requeue_witness :
    dequeue (ingRetry.flushQueues.getD 0 []) = some (opShutdown, []) ∧
    (⟨1000, "u", 2, true⟩ : flushOp) ∈ (flushLoopStep ingRetry 0 0).flushQueues.getD 0 [] :=
  ⟨by decide, by
    have h := (flushLoop_error_requeue ingRetry 0 0 opShutdown [] "chunk store put failed"
      (by decide) (by decide) (by simp) (by rfl)).1 rfl
    exact h.2.1⟩

theorem sweepSeries_frame (i : Ingester) (now : Int) (userID : String) (fp : Nat)
    (series : memorySeries) (immediate : Bool) :
    (sweepSeries i now userID fp series immediate).userStates = i.userStates ∧
    (sweepSeries i now userID fp series immediate).cfg = i.cfg ∧
    (sweepSeries i now userID fp series immediate).chunkStore = i.chunkStore := by
  unfold sweepSeries
  dsimp only
  repeat' split
  all_goals exact ⟨rfl, rfl, rfl⟩

theorem mem_enqueue (x o : flushOp) (q : List flushOp) (h : x ∈ (enqueue q o).2) :
    x ∈ q ∨ x = o := by
  simp only [enqueue] at h
  by_cases hc : q.any (fun p => p.userID == o.userID && p.fp == o.fp &&
      p.immediate == o.immediate)
  · rw [if_pos hc] at h
    exact Or.inl h
  · rw [if_neg hc] at h
    rcases mem_insertByFrom x o q h with h | h
    · exact Or.inr h
    · exact Or.inl h

/-- Every op on a queue sits on the shard its fingerprint hashes to. -/
def wellSharded (i : Ingester) : Prop :=
  ∀ j : Nat, ∀ op ∈ i.flushQueues.getD j [], op.fp % i.cfg.ConcurrentFlushes = j

theorem sweepSeries_queues_cases (i : Ingester) (now : Int) (userID : String) (fp : Nat)
    (series : memorySeries) (immediate : Bool) :
    (sweepSeries i now userID fp series immediate).flushQueues = i.flushQueues ∨
    (sweepSeries i now userID fp series immediate).flushQueues =
      i.flushQueues.set (fp % i.cfg.ConcurrentFlushes)
        (enqueue (i.flushQueues.getD (fp % i.cfg.ConcurrentFlushes) [])
          { fromTime := series.firstTime, userID := userID, fp := fp,
            immediate := immediate }).2 := by
  unfold sweepSeries
  dsimp only
  repeat' split
  all_goals first
    | exact Or.inl rfl
    | exact Or.inr rfl

theorem sweepSeries_wellSharded (i : Ingester) (now : Int) (userID : String) (fp : Nat)
    (series : memorySeries) (immediate : Bool) (j : Nat) (op : flushOp)
    (h : op ∈ (sweepSeries i now userID fp series immediate).flushQueues.getD j []) :
    op ∈ i.flushQueues.getD j [] ∨ op.fp % i.cfg.ConcurrentFlushes = j := by
  rcases sweepSeries_queues_cases i now userID fp series immediate with hset | hset
  · rw [hset] at h
    exact Or.inl h
  · rw [hset] at h
    by_cases hj : j = fp % i.cfg.ConcurrentFlushes
    · rw [← hj] at h
      by_cases hlt : j < i.flushQueues.length
      · rw [getD_set_self _ j _ [] hlt] at h
        rcases mem_enqueue op _ _ h with h | h
        · exact Or.inl h
        · subst h
          exact Or.inr hj.symm
      · rw [List.set_eq_of_length_le (by omega)] at h
        exact Or.inl h
    · rw [getD_set_ne _ _ j _ [] hj] at h
      exact Or.inl h

/-- Relation between queue states: every op of the new state was already on
the same queue or belongs on that shard. -/
def queuesOK (N : Nat) (qs qs' : List (List flushOp)) : Prop :=
  ∀ j op, op ∈ qs'.getD j [] → op ∈ qs.getD j [] ∨ op.fp % N = j

theorem queuesOK_refl (N : Nat) (qs : List (List flushOp)) : queuesOK N qs qs :=
  fun _ _ h => Or.inl h

theorem queuesOK_trans (N : Nat) (a b c : List (List flushOp)) (h1 : queuesOK N a b)
    (h2 : queuesOK N b c) : queuesOK N a c := by
  intro j op h
  rcases h2 j op h with h | h
  · exact h1 j op h
  · exact Or.inr h

theorem sweepPair_fst (now : Int) (imm : Bool) (id : String)
    (acc : Ingester × userState × Int) (pr : Nat × memorySeries) :
    (sweepPair now imm id acc pr).1.cfg = acc.1.cfg ∧
    (sweepPair now imm id acc pr).1.chunkStore = acc.1.chunkStore ∧
    (sweepPair now imm id acc pr).1.userStates = acc.1.userStates ∧
    (sweepPair now imm id acc pr).1.flushQueues =
      (sweepSeries acc.1 now id pr.1 pr.2 imm).flushQueues := by
  obtain ⟨hu, hc, hs⟩ := sweepSeries_frame acc.1 now id pr.1 pr.2 imm
  simp only [sweepPair]
  refine ⟨hc, hs, hu, ?_⟩
  trivial

theorem sweepPair_foldl_frame (now : Int) (imm : Bool) (id : String) (N : Nat) :
    ∀ (l : List (Nat × memorySeries)) (acc : Ingester × userState × Int),
    acc.1.cfg.ConcurrentFlushes = N →
    (l.foldl (sweepPair now imm id) acc).1.cfg = acc.1.cfg ∧
    (l.foldl (sweepPair now imm id) acc).1.chunkStore = acc.1.chunkStore ∧
    (l.foldl (sweepPair now imm id) acc).1.userStates = acc.1.userStates ∧
    queuesOK N acc.1.flushQueues (l.foldl (sweepPair now imm id) acc).1.flushQueues := by
  intro l
  induction l with
  | nil => exact fun acc _ => ⟨rfl, rfl, rfl, queuesOK_refl N _⟩
  | cons pr rest ih =>
    intro acc hN
    obtain ⟨hc, hs, hu, hq⟩ := sweepPair_fst now imm id acc pr
    have hN' : (sweepPair now imm id acc pr).1.cfg.ConcurrentFlushes = N := by rw [hc, hN]
    obtain ⟨ihc, ihs, ihu, ihq⟩ := ih (sweepPair now imm id acc pr) hN'
    refine ⟨by rw [List.foldl_cons, ihc, hc], by rw [List.foldl_cons, ihs, hs],
      by rw [List.foldl_cons, ihu, hu], ?_⟩
    rw [List.foldl_cons]
    refine queuesOK_trans N _ _ _ ?_ ihq
    rw [hq]
    intro j op h
    rcases sweepSeries_wellSharded acc.1 now id pr.1 pr.2 imm j op h with h | h
    · exact Or.inl h
    · rw [hN] at h
      exact Or.inr h

theorem sweepUser_fst (now : Int) (imm : Bool) (N : Nat) (acc : Ingester × Int)
    (u : String × userState) (hN : acc.1.cfg.ConcurrentFlushes = N) :
    (sweepUser now imm acc u).1.cfg = acc.1.cfg ∧
    (sweepUser now imm acc u).1.chunkStore = acc.1.chunkStore ∧
    queuesOK N acc.1.flushQueues (sweepUser now imm acc u).1.flushQueues := by
  obtain ⟨hc, hs, hu, hq⟩ :=
    sweepPair_foldl_frame now imm u.1 N u.2.fpToSeries (acc.1, u.2, acc.2) hN
  simp only [sweepUser]
  exact ⟨hc, hs, hq⟩

theorem sweepUser_foldl_frame (now : Int) (imm : Bool) (N : Nat) :
    ∀ (us : List (String × userState)) (acc : Ingester × Int),
    acc.1.cfg.ConcurrentFlushes = N →
    (us.foldl (sweepUser now imm) acc).1.cfg = acc.1.cfg ∧
    (us.foldl (sweepUser now imm) acc).1.chunkStore = acc.1.chunkStore ∧
    queuesOK N acc.1.flushQueues (us.foldl (sweepUser now imm) acc).1.flushQueues := by
  intro us
  induction us with
  | nil => exact fun acc _ => ⟨rfl, rfl, queuesOK_refl N _⟩
  | cons u rest ih =>
    intro acc hN
    obtain ⟨hc, hs, hq⟩ := sweepUser_fst now imm N acc u hN
    have hN' : (sweepUser now imm acc u).1.cfg.ConcurrentFlushes = N := by rw [hc, hN]
    obtain ⟨ihc, ihs, ihq⟩ := ih (sweepUser now imm acc u) hN'
    exact ⟨by rw [List.foldl_cons, ihc, hc], by rw [List.foldl_cons, ihs, hs],
      by rw [List.foldl_cons]; exact queuesOK_trans N _ _ _ hq ihq⟩

theorem sweepUsers_queues (i : Ingester) (now : Int) (imm : Bool) :
    (sweepUsers i now imm).cfg = i.cfg ∧
    queuesOK i.cfg.ConcurrentFlushes i.flushQueues (sweepUsers i now imm).flushQueues := by
  unfold sweepUsers
  rcases hcs : i.chunkStore with _ | b
  · exact ⟨rfl, queuesOK_refl _ _⟩
  · obtain ⟨hc, hs, hq⟩ := sweepUser_foldl_frame now imm i.cfg.ConcurrentFlushes
      i.userStates (i, 0) rfl
    exact ⟨hc, hq⟩

theorem dequeue_mem (q : List flushOp) (op : flushOp) (rest : List flushOp)
    (h : dequeue q = some (op, rest)) : op ∈ q ∧ ∀ x ∈ rest, x ∈ q := by
  cases q with
  | nil => simp [dequeue] at h
  | cons o r =>
    simp only [dequeue, Option.some_inj] at h
    injection h with h1 h2
    subst h1
    subst h2
    exact ⟨List.mem_cons_self _ _, fun x hx => List.mem_cons_of_mem _ hx⟩

/-- Claim C9: sharding invariant.  If every queued op sits on shard
`fp mod ConcurrentFlushes`, then this still holds after a full sweep (which
enqueues every op at `fp mod ConcurrentFlushes`) and after a worker-loop
step (whose retry re-enqueues the failed op on the worker's own queue, the
one the op was dequeued from). -/
theorem flushOps_on_home_shard (i : Ingester) (now : Int) (imm : Bool) (j : Nat)
    (hN : 0 < i.cfg.ConcurrentFlushes) (h : wellSharded i) :
    wellSharded (sweepUsers i now imm) ∧ wellSharded (flushLoopStep i now j) := by
  constructor
  · obtain ⟨hc, hq⟩ := sweepUsers_queues i now imm
    intro j' op hop
    rw [hc]
    rcases hq j' op hop with hmem | hfp
    · exact h j' op hmem
    · exact hfp
  · unfold flushLoopStep
    rcases hdeq : dequeue (i.flushQueues.getD j []) with _ | ⟨op, rest⟩
    · exact h
    · have hj : j < i.flushQueues.length := by
        by_contra hjc
        rw [List.getD_eq_getElem?_getD, List.getElem?_eq_none (by omega)] at hdeq
        simp [dequeue] at hdeq
      obtain ⟨hopmem, hrestmem⟩ := dequeue_mem _ op rest hdeq
      have hws1 : wellSharded { i with flushQueues := i.flushQueues.set j rest } := by
        intro j' op' hop
        simp only at hop
        by_cases hjj : j' = j
        · subst hjj
          rw [getD_set_self _ j' _ [] hj] at hop
          exact h j' op' (hrestmem op' hop)
        · rw [getD_set_ne _ j j' _ [] hjj] at hop
          exact h j' op' hop
      obtain ⟨hqf, hcf, hsf⟩ := flushUserSeries_frame
        { i with flushQueues := i.flushQueues.set j rest } now op.userID op.fp op.immediate
      rcases hr : flushUserSeries { i with flushQueues := i.flushQueues.set j rest } now
          op.userID op.fp op.immediate with ⟨res, i2⟩
      rw [hr] at hqf hcf
      simp only at hqf hcf
      have hws2 : wellSharded i2 := by
        intro j' op' hop
        rw [hqf] at hop
        rw [hcf]
        exact hws1 j' op' hop
      dsimp only
      rw [hr]
      dsimp only
      cases res with
      | ok u => exact hws2
      | error e =>
        by_cases himm : op.immediate = true
        · rw [himm]
          simp only [if_true]
          intro j' op' hop
          simp only [hqf, hcf] at hop ⊢
          by_cases hjj : j' = j
          · subst hjj
            rw [getD_set_self _ j' _ [] (by simpa using hj)] at hop
            rcases mem_enqueue op' _ _ hop with hmem | heq
            · rw [getD_set_self _ j' _ [] hj] at hmem
              exact h j' op' (hrestmem op' hmem)
            · subst heq
              exact h j' op hopmem
          · rw [getD_set_ne _ j j' _ [] hjj, getD_set_ne _ j j' _ [] hjj] at hop
            exact h j' op' hop
        · have himmf : op.immediate = false := by simpa using himm
          rw [himmf]
          simp only [Bool.false_eq_true, if_false]
          exact hws2

/-- Ingester with one (empty) shard queue for the sharding witness. -/
def ingSharded : Ingester :=
  { cfg := cfgRetain, limits := fun _ => 0, chunkStore := some true,
    userStates := [("u", ⟨[(2, seriesSmall)]⟩)], flushQueues := [[]], metrics := mZero }

/-- Witness for C9 at a concrete single-shard ingester. -/
theorem flushOps_on_home_shard_witness :
    0 < ingSharded.cfg.ConcurrentFlushes ∧ wellSharded (sweepUsers ingSharded 0 true) :=
  ⟨by decide,
    (flushOps_on_home_shard ingSharded 0 true 0 (by decide)
      (by
        intro j op hop
        rcases j with _ | j <;> simp [ingSharded, List.getD] at hop)).1⟩

/-- The pure effect of one reaper call on a series. -/
def reapSeries (cfg : Config) (now : Int) (s : memorySeries) : memorySeries :=
  { s with chunkDescs := (reapChunks cfg.RetainPeriod now s.chunkDescs).1 }

/-- The pure effect of one full sweep iteration on a tenant's series list:
each series is reaped and dropped when left chunkless. -/
def sweepTransformPairs (cfg : Config) (now : Int) :
    List (Nat × memorySeries) → List (Nat × memorySeries)
  | [] => []
  | p :: rest =>
    if (reapSeries cfg now p.2).chunkDescs.isEmpty then sweepTransformPairs cfg now rest
    else (p.1, reapSeries cfg now p.2) :: sweepTransformPairs cfg now rest

/-- One step of the `oldest` fold of `sweepUsers` (flush.go line 131). -/
def oldestStep (oldest first : Int) : Int :=
  if first > 0 ∧ (oldest = 0 ∨ first < oldest) then first else oldest

/-- The `oldest` fold of `sweepUsers` over a list of first-unflushed-chunk
times. -/
def minFold (a : Int) (l : List Int) : Int := l.foldl oldestStep a

/-- The minimum of the positive elements of a list, or 0 when there is
none. -/
def minPosSpec (l : List Int) : Int :=
  match l.filter (fun x => decide (0 < x)) with
  | [] => 0
  | x :: xs => xs.foldl min x

theorem oldestStep_pos_pos (a x : Int) (ha : 0 < a) (hx : 0 < x) :
    oldestStep a x = min a x := by
  unfold oldestStep
  rcases lt_trichotomy x a with hc | hc | hc
  · rw [if_pos ⟨hx, Or.inr hc⟩, min_eq_right (le_of_lt hc)]
  · subst hc
    rw [if_neg (by omega), min_self]
  · rw [if_neg (by omega), min_eq_left (le_of_lt hc)]

theorem oldestStep_nonpos (a x : Int) (hx : ¬0 < x) : oldestStep a x = a := by
  unfold oldestStep
  rw [if_neg (by omega)]

theorem minFold_cons (a x : Int) (xs : List Int) :
    minFold a (x :: xs) = minFold (oldestStep a x) xs := rfl

theorem minFold_pos (l : List Int) : ∀ a : Int, 0 < a →
    minFold a l = (l.filter (fun x => decide (0 < x))).foldl min a := by
  induction l with
  | nil => intro a _; rfl
  | cons x xs ih =>
    intro a ha
    by_cases hx : 0 < x
    · have hf : (x :: xs).filter (fun y => decide (0 < y)) =
          x :: xs.filter (fun y => decide (0 < y)) := by
        simp [List.filter_cons, hx]
      rw [minFold_cons, oldestStep_pos_pos a x ha hx, hf, List.foldl_cons]
      exact ih (min a x) (by omega)
    · have hf : (x :: xs).filter (fun y => decide (0 < y)) =
          xs.filter (fun y => decide (0 < y)) := by
        simp [List.filter_cons, hx]
      rw [minFold_cons, oldestStep_nonpos a x hx, hf]
      exact ih a ha

theorem minFold_zero (l : List Int) : minFold 0 l = minPosSpec l := by
  induction l with
  | nil => rfl
  | cons x xs ih =>
    by_cases hx : 0 < x
    · have hstep : oldestStep 0 x = x := by
        unfold oldestStep
        rw [if_pos ⟨hx, Or.inl rfl⟩]
      have hf : (x :: xs).filter (fun y => decide (0 < y)) =
          x :: xs.filter (fun y => decide (0 < y)) := by
        simp [List.filter_cons, hx]
      rw [minFold_cons, hstep, minFold_pos xs x hx]
      simp only [minPosSpec, hf]
    · have hf : (x :: xs).filter (fun y => decide (0 < y)) =
          xs.filter (fun y => decide (0 < y)) := by
        simp [List.filter_cons, hx]
      rw [minFold_cons, oldestStep_nonpos 0 x hx, ih]
      simp only [minPosSpec, hf]

theorem setSeriesList_of_not_mem (l : List (Nat × memorySeries)) (fp : Nat)
    (s : memorySeries) (h : ∀ p ∈ l, p.1 ≠ fp) : setSeriesList l fp s = l := by
  induction l with
  | nil => rfl
  | cons p rest ih =>
    rw [setSeriesList, if_neg (h p (List.mem_cons_self p rest)),
      ih (fun q hq => h q (List.mem_cons_of_mem p hq))]

theorem setSeriesList_append (a b : List (Nat × memorySeries)) (fp : Nat)
    (s : memorySeries) :
    setSeriesList (a ++ b) fp s = setSeriesList a fp s ++ setSeriesList b fp s := by
  induction a with
  | nil => rfl
  | cons p rest ih =>
    by_cases hp : p.1 = fp
    · simp only [List.cons_append, setSeriesList, if_pos hp, List.append_eq]
      rw [ih]
    · simp only [List.cons_append, setSeriesList, if_neg hp, List.append_eq]
      rw [ih]

theorem removeSeriesList_of_not_mem (l : List (Nat × memorySeries)) (fp : Nat)
    (h : ∀ p ∈ l, p.1 ≠ fp) : removeSeriesList l fp = l := by
  induction l with
  | nil => rfl
  | cons p rest ih =>
    rw [removeSeriesList, if_neg (h p (List.mem_cons_self p rest)),
      ih (fun q hq => h q (List.mem_cons_of_mem p hq))]

theorem removeSeriesList_append (a b : List (Nat × memorySeries)) (fp : Nat) :
    removeSeriesList (a ++ b) fp = removeSeriesList a fp ++ removeSeriesList b fp := by
  induction a with
  | nil => rfl
  | cons p rest ih =>
    by_cases hp : p.1 = fp
    · simp only [List.cons_append, removeSeriesList, if_pos hp, List.append_eq]
      rw [ih]
    · simp only [List.cons_append, removeSeriesList, if_neg hp, List.append_eq]
      rw [ih]

theorem setSeriesList_ctx (C l' : List (Nat × memorySeries)) (fp : Nat)
    (s0 s : memorySeries) (hC : ∀ p ∈ C, p.1 ≠ fp) (hl : ∀ p ∈ l', p.1 ≠ fp) :
    setSeriesList (C ++ (fp, s0) :: l') fp s = C ++ (fp, s) :: l' := by
  rw [setSeriesList_append, setSeriesList_of_not_mem C fp s hC]
  congr 1
  rw [setSeriesList, if_pos rfl, setSeriesList_of_not_mem l' fp s hl]

theorem removeSeriesList_ctx (C l' : List (Nat × memorySeries)) (fp : Nat)
    (s0 : memorySeries) (hC : ∀ p ∈ C, p.1 ≠ fp) (hl : ∀ p ∈ l', p.1 ≠ fp) :
    removeSeriesList (C ++ (fp, s0) :: l') fp = C ++ l' := by
  rw [removeSeriesList_append, removeSeriesList_of_not_mem C fp hC]
  congr 1
  rw [removeSeriesList, if_pos rfl, removeSeriesList_of_not_mem l' fp hl]

theorem updateUser_ctx (D E : List (String × userState)) (id : String) (ust : userState)
    (f : userState → userState) (hD : ∀ p ∈ D, p.1 ≠ id) (hE : ∀ p ∈ E, p.1 ≠ id) :
    updateUser (D ++ (id, ust) :: E) id f = D ++ (id, f ust) :: E := by
  induction D with
  | nil =>
    rw [List.nil_append, List.nil_append, updateUser, if_pos rfl]
    congr 1
    induction E with
    | nil => rfl
    | cons p rest ih =>
      rw [updateUser, if_neg (hE p (List.mem_cons_self p rest)),
        ih (fun q hq => hE q (List.mem_cons_of_mem p hq))]
  | cons p rest ih =>
    simp only [List.cons_append, updateUser,
      if_neg (hD p (List.mem_cons_self p rest)), List.append_eq]
    rw [ih (fun q hq => hD q (List.mem_cons_of_mem p hq))]

theorem lookupUser_ctx (D E : List (String × userState)) (id : String) (ust : userState)
    (hD : ∀ p ∈ D, p.1 ≠ id) : lookupUser (D ++ (id, ust) :: E) id = some ust := by
  induction D with
  | nil => simp [lookupUser]
  | cons p rest ih =>
    simp only [List.cons_append, lookupUser,
      if_neg (hD p (List.mem_cons_self p rest))]
    exact ih (fun q hq => hD q (List.mem_cons_of_mem p hq))

theorem sweepPair_snd (now : Int) (imm : Bool) (id : String) (i : Ingester)
    (ust : userState) (old : Int) (fp : Nat) (s : memorySeries) :
    (sweepPair now imm id (i, ust, old) (fp, s)).2.1 =
      (if (reapSeries i.cfg now s).chunkDescs.isEmpty then ust.removeSeries fp
       else ust.set fp (reapSeries i.cfg now s)) ∧
    (sweepPair now imm id (i, ust, old) (fp, s)).2.2 =
      oldestStep old (reapSeries i.cfg now s).firstUnflushedChunkTime := by
  obtain ⟨hu, hc, hs⟩ := sweepSeries_frame i now id fp s imm
  simp only [sweepPair, removeFlushedChunks, oldestStep, reapSeries, hc]
  constructor
  · by_cases hE : (reapChunks i.cfg.RetainPeriod now s.chunkDescs).1.isEmpty = true
    · rw [if_pos hE, if_pos hE]
    · rw [if_neg hE, if_neg hE]
  · by_cases hE : (reapChunks i.cfg.RetainPeriod now s.chunkDescs).1.isEmpty = true
    · rw [if_pos hE]
    · rw [if_neg hE]

theorem sweepPair_foldl_chars (now : Int) (imm : Bool) (id : String) (cfg : Config) :
    ∀ (l C : List (Nat × memorySeries)) (i : Ingester) (old : Int),
    i.cfg = cfg →
    ((C ++ l).map Prod.fst).Nodup →
    (l.foldl (sweepPair now imm id) (i, (⟨C ++ l⟩ : userState), old)).2.1 =
      ⟨C ++ sweepTransformPairs cfg now l⟩ ∧
    (l.foldl (sweepPair now imm id) (i, (⟨C ++ l⟩ : userState), old)).2.2 =
      minFold old (l.map (fun p => (reapSeries cfg now p.2).firstUnflushedChunkTime)) := by
  intro l
  induction l with
  | nil =>
    intro C i old hcfg hnd
    exact ⟨by simp [sweepTransformPairs], rfl⟩
  | cons pr l' ih =>
    obtain ⟨fp, s⟩ := pr
    intro C i old hcfg hnd
    have hmapnd : (C.map Prod.fst ++ fp :: l'.map Prod.fst).Nodup := by simpa using hnd
    obtain ⟨hndC, hndcons, hdisj⟩ := List.nodup_append.mp hmapnd
    have hC : ∀ p ∈ C, p.1 ≠ fp := by
      intro p hp hc
      exact hdisj (hc ▸ List.mem_map_of_mem Prod.fst hp) (List.mem_cons_self fp _)
    have hl' : ∀ p ∈ l', p.1 ≠ fp := by
      intro p hp hc
      exact (List.nodup_cons.mp hndcons).1 (hc ▸ List.mem_map_of_mem Prod.fst hp)
    rw [List.foldl_cons]
    obtain ⟨hust1, hold1⟩ := sweepPair_snd now imm id i ⟨C ++ (fp, s) :: l'⟩ old fp s
    obtain ⟨hc1, hs1, hu1, hq1⟩ :=
      sweepPair_fst now imm id (i, ⟨C ++ (fp, s) :: l'⟩, old) (fp, s)
    rcases hstep : sweepPair now imm id (i, ⟨C ++ (fp, s) :: l'⟩, old) (fp, s)
      with ⟨i', ust1, old1⟩
    rw [hstep] at hust1 hold1 hc1
    simp only at hust1 hold1 hc1
    have hcfg' : i'.cfg = cfg := by rw [hc1, hcfg]
    rw [hcfg] at hust1 hold1
    by_cases hE : (reapSeries cfg now s).chunkDescs.isEmpty = true
    · rw [if_pos hE] at hust1
      have hrm : ((⟨C ++ (fp, s) :: l'⟩ : userState).removeSeries fp) =
          (⟨C ++ l'⟩ : userState) := by
        simp only [userState.removeSeries]
        rw [removeSeriesList_ctx C l' fp s hC hl']
      rw [hrm] at hust1
      subst hust1
      have hnd' : ((C ++ l').map Prod.fst).Nodup := by
        rw [List.map_append]
        exact List.nodup_append.mpr ⟨hndC, (List.nodup_cons.mp hndcons).2,
          fun x hx hx' => hdisj hx (List.mem_cons_of_mem fp hx')⟩
      obtain ⟨ihA, ihB⟩ := ih C i' old1 hcfg' hnd'
      constructor
      · rw [ihA]
        have hT : sweepTransformPairs cfg now ((fp, s) :: l') =
            sweepTransformPairs cfg now l' := by
          rw [sweepTransformPairs, if_pos hE]
        rw [hT]
      · rw [ihB, hold1, List.map_cons, minFold_cons]
    · rw [if_neg hE] at hust1
      have hset : ((⟨C ++ (fp, s) :: l'⟩ : userState).set fp (reapSeries cfg now s)) =
          (⟨(C ++ [(fp, reapSeries cfg now s)]) ++ l'⟩ : userState) := by
        simp only [userState.set]
        rw [setSeriesList_ctx C l' fp s (reapSeries cfg now s) hC hl']
        simp
      rw [hset] at hust1
      subst hust1
      have hnd' : (((C ++ [(fp, reapSeries cfg now s)]) ++ l').map Prod.fst).Nodup := by
        have hkeys : ((C ++ [(fp, reapSeries cfg now s)]) ++ l').map Prod.fst =
            (C ++ (fp, s) :: l').map Prod.fst := by
          simp [List.map_append]
        rw [hkeys]
        exact hnd
      obtain ⟨ihA, ihB⟩ := ih (C ++ [(fp, reapSeries cfg now s)]) i' old1 hcfg' hnd'
      constructor
      · rw [ihA]
        have hT : sweepTransformPairs cfg now ((fp, s) :: l') =
            (fp, reapSeries cfg now s) :: sweepTransformPairs cfg now l' := by
          rw [sweepTransformPairs, if_neg hE]
        rw [hT]
        simp
      · rw [ihB, hold1, List.map_cons, minFold_cons]

/-- The pure effect of one full sweep on a tenant state. -/
def userTransform (cfg : Config) (now : Int) (u : userState) : userState :=
  ⟨sweepTransformPairs cfg now u.fpToSeries⟩

theorem minFold_append (a : Int) (l1 l2 : List Int) :
    minFold a (l1 ++ l2) = minFold (minFold a l1) l2 :=
  List.foldl_append _ _ _ _

theorem sweepUser_foldl_chars (now : Int) (imm : Bool) (cfg : Config) :
    ∀ (us D : List (String × userState)) (i : Ingester) (old : Int),
    i.cfg = cfg →
    i.userStates = D ++ us →
    ((D ++ us).map Prod.fst).Nodup →
    (∀ u ∈ us, (u.2.fpToSeries.map Prod.fst).Nodup) →
    (us.foldl (sweepUser now imm) (i, old)).1.userStates =
      D ++ us.map (fun u => (u.1, userTransform cfg now u.2)) ∧
    (us.foldl (sweepUser now imm) (i, old)).2 =
      minFold old ((us.map (fun u => u.2.fpToSeries.map
        (fun p => (reapSeries cfg now p.2).firstUnflushedChunkTime))).flatten) ∧
    (us.foldl (sweepUser now imm) (i, old)).1.cfg = cfg := by
  intro us
  induction us with
  | nil =>
    intro D i old hcfg hus hnd hinner
    exact ⟨by simpa using hus, rfl, hcfg⟩
  | cons u us' ih =>
    intro D i old hcfg hus hnd hinner
    have hndu : (([] ++ u.2.fpToSeries).map Prod.fst).Nodup := by
      simpa using hinner u (List.mem_cons_self u us')
    obtain ⟨hinA0, hinB0⟩ :=
      sweepPair_foldl_chars now imm u.1 cfg u.2.fpToSeries [] i old hcfg hndu
    have hinA : (List.foldl (sweepPair now imm u.1) (i, u.2, old) u.2.fpToSeries).2.1 =
        userTransform cfg now u.2 := hinA0
    have hinB : (List.foldl (sweepPair now imm u.1) (i, u.2, old) u.2.fpToSeries).2.2 =
        minFold old (u.2.fpToSeries.map
          (fun p => (reapSeries cfg now p.2).firstUnflushedChunkTime)) := hinB0
    obtain ⟨hfc, hfs, hfu, hfq⟩ := sweepPair_foldl_frame now imm u.1
      cfg.ConcurrentFlushes u.2.fpToSeries (i, u.2, old) (by rw [hcfg])
    rw [List.foldl_cons]
    have hmapnd : (D.map Prod.fst ++ u.1 :: us'.map Prod.fst).Nodup := by simpa using hnd
    obtain ⟨hndD, hndcons, hdisj⟩ := List.nodup_append.mp hmapnd
    have hD : ∀ p ∈ D, p.1 ≠ u.1 := by
      intro p hp hc
      exact hdisj (hc ▸ List.mem_map_of_mem Prod.fst hp) (List.mem_cons_self u.1 _)
    have hE : ∀ p ∈ us', p.1 ≠ u.1 := by
      intro p hp hc
      exact (List.nodup_cons.mp hndcons).1 (hc ▸ List.mem_map_of_mem Prod.fst hp)
    have hsu : sweepUser now imm (i, old) u =
        ({ (u.2.fpToSeries.foldl (sweepPair now imm u.1) (i, u.2, old)).1 with
            userStates := D ++ (u.1, userTransform cfg now u.2) :: us' },
          (u.2.fpToSeries.foldl (sweepPair now imm u.1) (i, u.2, old)).2.2) := by
      simp only [sweepUser]
      congr 1
      · congr 1
        rw [hinA, hfu]
        rw [show (i, u.2, old).1.userStates = i.userStates from rfl, hus]
        rw [show (D ++ u :: us') = (D ++ (u.1, u.2) :: us') from rfl]
        rw [updateUser_ctx D us' u.1 u.2 _ hD hE]
    rw [hsu]
    have hcfg2 : ({ (u.2.fpToSeries.foldl (sweepPair now imm u.1) (i, u.2, old)).1 with
        userStates := D ++ (u.1, userTransform cfg now u.2) :: us' } : Ingester).cfg = cfg := by
      simp only
      rw [hfc, hcfg]
    obtain ⟨ihA, ihB, ihC⟩ := ih (D ++ [(u.1, userTransform cfg now u.2)])
      ({ (u.2.fpToSeries.foldl (sweepPair now imm u.1) (i, u.2, old)).1 with
          userStates := D ++ (u.1, userTransform cfg now u.2) :: us' })
      (u.2.fpToSeries.foldl (sweepPair now imm u.1) (i, u.2, old)).2.2
      hcfg2
      (by simp)
      (by
        have hkeys : ((D ++ [(u.1, userTransform cfg now u.2)]) ++ us').map Prod.fst =
            (D ++ u :: us').map Prod.fst := by
          simp [List.map_append]
        rw [hkeys]
        exact hnd)
      (fun v hv => hinner v (List.mem_cons_of_mem u hv))
    refine ⟨?_, ?_, ihC⟩
    · rw [ihA]
      simp
    · rw [ihB, hinB]
      rw [List.map_cons, List.flatten_cons, minFold_append]

theorem firstUnflushed_of_empty (s : memorySeries) (h : s.chunkDescs.isEmpty = true) :
    s.firstUnflushedChunkTime = 0 := by
  obtain ⟨m, cds, hc, st⟩ := s
  cases cds with
  | nil => rfl
  | cons d rest => simp at h

theorem filter_pos_reap_eq (cfg : Config) (now : Int) (l : List (Nat × memorySeries)) :
    (l.map (fun p => (reapSeries cfg now p.2).firstUnflushedChunkTime)).filter
        (fun x => decide (0 < x)) =
      ((sweepTransformPairs cfg now l).map (fun p => p.2.firstUnflushedChunkTime)).filter
        (fun x => decide (0 < x)) := by
  induction l with
  | nil => rfl
  | cons p rest ih =>
    by_cases hE : (reapSeries cfg now p.2).chunkDescs.isEmpty = true
    · have h0 : (reapSeries cfg now p.2).firstUnflushedChunkTime = 0 :=
        firstUnflushed_of_empty _ hE
      rw [List.map_cons, List.filter_cons, h0]
      rw [show (decide ((0:Int) < 0)) = false from by decide]
      rw [sweepTransformPairs, if_pos hE]
      simpa using ih
    · rw [List.map_cons, sweepTransformPairs, if_neg hE, List.map_cons]
      rw [List.filter_cons, List.filter_cons]
      by_cases hpos : 0 < (reapSeries cfg now p.2).firstUnflushedChunkTime
      · rw [show (decide (0 < (reapSeries cfg now p.2).firstUnflushedChunkTime)) = true
          from decide_eq_true hpos]
        simpa using ih
      · rw [show (decide (0 < (reapSeries cfg now p.2).firstUnflushedChunkTime)) = false
          from decide_eq_false hpos]
        simpa using ih

theorem minPosSpec_congr (l l' : List Int)
    (h : l.filter (fun x => decide (0 < x)) = l'.filter (fun x => decide (0 < x))) :
    minPosSpec l = minPosSpec l' := by
  unfold minPosSpec
  rw [h]

/-- All `firstUnflushedChunkTime` values across every series of every tenant. -/
def allFirstUnflushed (i : Ingester) : List Int :=
  (i.userStates.map (fun u => u.2.fpToSeries.map
    (fun p => p.2.firstUnflushedChunkTime))).flatten

/-- Claim C7: after a complete `sweepUsers` run with a working chunk store,
the oldest-unflushed gauge holds (in Unix seconds, as the source stores
`oldest.Unix()`) the minimum of `firstUnflushedChunkTime()` over all series
whose value is positive, or 0 when there is none. -/
theorem sweepUsers_oldest_gauge (i : Ingester) (now : Int) (immediate : Bool)
    (hstore : i.chunkStore.isSome = true)
    (hU : (i.userStates.map Prod.fst).Nodup)
    (hS : ∀ u ∈ i.userStates, (u.2.fpToSeries.map Prod.fst).Nodup) :
    (sweepUsers i now immediate).metrics.oldestUnflushedChunkTimestamp =
      timeUnix (minPosSpec (allFirstUnflushed (sweepUsers i now immediate))) := by
  obtain ⟨b, hb⟩ : ∃ b, i.chunkStore = some b := by
    cases hcs : i.chunkStore with
    | none => rw [hcs] at hstore; simp at hstore
    | some b => exact ⟨b, rfl⟩
  obtain ⟨hA, hB, hC⟩ := sweepUser_foldl_chars now immediate i.cfg i.userStates [] i 0
    rfl (by simp) (by simpa using hU) hS
  unfold sweepUsers
  rw [hb]
  dsimp only
  rw [hB]
  simp only [allFirstUnflushed]
  rw [hA]
  rw [List.nil_append, List.map_map]
  congr 1
  rw [minFold_zero]
  apply minPosSpec_congr
  rw [List.filter_flatten, List.filter_flatten, List.map_map, List.map_map]
  apply congrArg List.flatten
  apply List.map_congr_left
  intro u hu
  simp only [Function.comp]
  exact filter_pos_reap_eq i.cfg now u.2.fpToSeries

/-- Witness for C7 on a one-tenant, one-series ingester. -/
theorem sweepUsers_oldest_gauge_witness :
    ingWorkingPut.chunkStore.isSome = true ∧
    (sweepUsers ingWorkingPut 0 false).metrics.oldestUnflushedChunkTimestamp =
      timeUnix (minPosSpec (allFirstUnflushed (sweepUsers ingWorkingPut 0 false))) :=
  ⟨rfl, sweepUsers_oldest_gauge ingWorkingPut 0 false rfl (by decide) (by decide)⟩
